import Mathlib

/-
Verification of the libcouchbase end-to-end tracing core (deps/lcb/include/libcouchbase/tracing.h).

The repository ships only the public C header for this component: the header declares the
span/tracer API (lcbtrace_span_start, lcbtrace_span_finish, the tag setters and getters, the
role-flag setters, lcbtrace_new and lcb_set_tracer) and documents its behaviour, while the
implementation files are not part of the source tree.  The definitions below therefore embed
the span engine and the built-in threshold/orphan tracer as a shallow model: every definition
whose behaviour is not fixed by the header carries a doc comment starting with
"Modelled from the spec:" naming the missing piece.  Behaviour that the header itself
documents (for example that dispatch-span tag copying is skipped when the active tracer uses
the v1 callback interface) is taken from the header.

Conventions of the model:
- machine integers (timestamps, identifiers, tag values of type uint64) are Nat;
- C double tag values are represented by their 64-bit payload as a Nat, since the core only
  stores, copies and compares them and never performs floating-point arithmetic on them;
- the LCBTRACE_NOW sentinel (0 in C) is modelled by the none case of an Option Nat argument;
- the unset finish timestamp sentinel is modelled by finish_ts being none;
- span identity is an arena index (a Nat); the spans field of the engine maps indices to spans.
-/

namespace LcbTrace

/-- Service classification of a span, from the lcbtrace_SERVICE enum of tracing.h. -/
inductive SERVICE
  | kv
  | query
  | view
  | search
  | analytics
deriving DecidableEq

/-- Typed tag value: one of string, uint64, double, bool, as in the four
lcbtrace_span_add_tag functions of tracing.h.  The double payload is kept as its
64-bit representation because the core never computes with it. -/
inductive TagValue
  | str (s : String)
  | uint (n : Nat)
  | dbl (bits : Nat)
  | boolean (b : Bool)
deriving DecidableEq

/-- Modelled from the spec: the TagTable of a span is an ordered mapping from tag
name to a typed value with unique keys; the implementation is not in the source tree. -/
abbrev TagTable := List (String × TagValue)

/-- Modelled from the spec: upsert into the TagTable, last write wins on duplicate keys. -/
def addTag : TagTable → String → TagValue → TagTable
  | [], n, v => [(n, v)]
  | (m, w) :: t, n, v => if m = n then (n, v) :: t else (m, w) :: addTag t n v

/-- Modelled from the spec: typed lookup returning a missing signal (none) distinct
from a present value. -/
def getTag : TagTable → String → Option TagValue
  | [], _ => none
  | (m, w) :: t, n => if m = n then some w else getTag t n

/-- Keys of a tag table, in order. -/
def tagKeys (t : TagTable) : List String := t.map Prod.fst

/-- Tracer capability value.  The C struct lcbtrace_TRACER carries a version and a
union of a v0 simple reporter callback and a v1 external-delegate callback set; the
model records the identity of the tracer and whether it is an external v1 tracer. -/
structure Tracer where
  tid : Nat
  externalV1 : Bool
deriving DecidableEq

/-- Outcome of an engine operation.  Modelled from the spec: finishing an already
finished span is an InvalidState caller error that is rejected. -/
inductive Status
  | success
  | invalidState
deriving DecidableEq

/-- Span record, following the data model of the spec and the accessors of tracing.h:
identifiers, operation name, timestamps, optional parent reference, service, the four
role flags, and a TagTable.  The ctracer field remembers the tracer that was active at
creation time; reporting uses the tracer active at finish time (finish-time binding). -/
structure Span where
  span_id : Nat
  trace_id : Nat
  operation : String
  ctracer : Nat
  start_ts : Nat
  finish_ts : Option Nat
  parent : Option Nat
  service : Option SERVICE
  is_outer : Bool
  is_encode : Bool
  is_dispatch : Bool
  orphaned : Bool
  tags : TagTable
deriving DecidableEq

/-- Modelled from the spec: the per-client-instance tracing facade state.  It owns the
arena of spans, the fresh-identifier counter, the monotone microsecond clock, the active
tracer pointer, and the log of report calls made to tracers, as pairs of span id and
tracer id in call order. -/
structure Engine where
  spans : Nat → Option Span
  nextId : Nat
  clock : Nat
  tracer : Tracer
  reports : List (Nat × Nat)

/-- Pointwise update of the span arena. -/
def updateSpan (f : Nat → Option Span) (sid : Nat) (s : Span) : Nat → Option Span :=
  fun i => if i = sid then some s else f i

/-- Resolve a caller timestamp: none is the LCBTRACE_NOW sentinel and reads the clock. -/
def resolveTs (st : Engine) : Option Nat → Nat
  | none => st.clock
  | some t => t

/-- Modelled from the spec: sanitised parent reference of lcbtrace_span_start; the C
API passes the parent as a pointer inside an lcbtrace_REF, so a parent reference always
denotes an existing span, which the model captures by dropping dangling indices. -/
def startParent (st : Engine) (pref : Option Nat) : Option Nat :=
  match pref with
  | none => none
  | some pid => if (st.spans pid).isSome then some pid else none

/-- Modelled from the spec: the trace id of a new span is the trace id of its parent
when a parent reference is given, else a fresh id (the model uses the fresh span id). -/
def startTraceId (st : Engine) (pref2 : Option Nat) (sid : Nat) : Nat :=
  match pref2 with
  | none => sid
  | some pid =>
    match st.spans pid with
    | some p => p.trace_id
    | none => sid

/-- Modelled from the spec: the span allocated by lcbtrace_span_start, with fresh
span id, inherited or fresh trace id, the given operation name, start timestamp from
the argument or the clock, empty tags and all role flags false. -/
def newSpan (st : Engine) (op : String) (now : Option Nat) (pref : Option Nat) : Span :=
  { span_id := st.nextId
    trace_id := startTraceId st (startParent st pref) st.nextId
    operation := op
    ctracer := st.tracer.tid
    start_ts := resolveTs st now
    finish_ts := none
    parent := startParent st pref
    service := none
    is_outer := false
    is_encode := false
    is_dispatch := false
    orphaned := false
    tags := [] }

/-- Modelled from the spec: lcbtrace_span_start allocates a new span in the arena and
returns its id. -/
def lcbtrace_span_start (st : Engine) (op : String) (now : Option Nat) (pref : Option Nat) :
    Engine × Nat :=
  ({ st with
      spans := updateSpan st.spans st.nextId (newSpan st op now pref)
      nextId := st.nextId + 1 },
   st.nextId)

/-- Name of the accumulated encode duration tag placed on the parent of an encode span. -/
def encodeDurationKey : String := "total_encode_duration"

/-- Current numeric value of the accumulated encode duration tag, zero when absent. -/
def encBase (t : TagTable) : Nat :=
  match getTag t encodeDurationKey with
  | some (TagValue.uint n) => n
  | _ => 0

/-- Modelled from the spec: finishing an encode-flagged child adds its duration to the
accumulated encode duration tag of the parent. -/
def encodeAdd (t : TagTable) (d : Nat) : TagTable :=
  addTag t encodeDurationKey (TagValue.uint (encBase t + d))

/-- Modelled from the spec: copy every tag of the child into the TagTable of the parent,
upserting in order. -/
def copyTags (child : TagTable) (pt : TagTable) : TagTable :=
  child.foldl (fun acc nv => addTag acc nv.1 nv.2) pt

/-- Modelled from the spec and the header: a dispatch-flagged child copies its tags
into the parent table, except when the active tracer is an external v1-callback tracer
(documented at lcbtrace_span_set_is_dispatch in tracing.h). -/
def dispatchTags (tr : Tracer) (child : Span) (pt : TagTable) : TagTable :=
  if child.is_dispatch && !tr.externalV1 then copyTags child.tags pt else pt

/-- Modelled from the spec: an encode-flagged child adds its duration (finish minus
start timestamp) to the accumulated encode duration tag of the parent table. -/
def encodeTags (child : Span) (pt : TagTable) (ft : Nat) : TagTable :=
  if child.is_encode then encodeAdd pt (ft - child.start_ts) else pt

/-- Modelled from the spec and the header: the tag propagation applied to the parent
when a child finishes: the dispatch copy first, then the encode accumulation. -/
def propagate (tr : Tracer) (child : Span) (p : Span) (ft : Nat) : Span :=
  { p with tags := encodeTags child (dispatchTags tr child p.tags) ft }

/-- Modelled from the spec: resolve the parent reference of the finished span and apply
tag propagation to the parent, skipping when there is no parent. -/
def propagateParent (tr : Tracer) (spans : Nat → Option Span) (s1 : Span) (ft : Nat) :
    Nat → Option Span :=
  match s1.parent with
  | none => spans
  | some pid =>
    match spans pid with
    | none => spans
    | some p => updateSpan spans pid (propagate tr s1 p ft)

/-- Modelled from the spec: state change of a successful finish.  The span gets its
finish timestamp, tag propagation is applied to the parent, and the span is handed to
the report path of the active tracer exactly when it is an outer span or has no parent. -/
def finishCore (st : Engine) (sid : Nat) (s : Span) (ft : Nat) : Engine :=
  { st with
    spans := propagateParent st.tracer (updateSpan st.spans sid { s with finish_ts := some ft })
      { s with finish_ts := some ft } ft
    reports :=
      if s.is_outer || s.parent.isNone then st.reports ++ [(sid, st.tracer.tid)]
      else st.reports }

/-- Modelled from the spec: lcbtrace_span_finish.  A second finish of the same span is
detected and rejected with an InvalidState error, leaving the engine unchanged; a first
finish sets the finish timestamp, propagates tags, and reports outer and parentless
spans to the tracer active at finish time. -/
def lcbtrace_span_finish (st : Engine) (sid : Nat) (now : Option Nat) : Engine × Status :=
  match st.spans sid with
  | none => (st, Status.invalidState)
  | some s =>
    if s.finish_ts.isSome then (st, Status.invalidState)
    else (finishCore st sid s (resolveTs st now), Status.success)

/-- Apply a pure update to one span of the arena, identity when the span is absent. -/
def modifySpan (st : Engine) (sid : Nat) (f : Span → Span) : Engine :=
  match st.spans sid with
  | none => st
  | some s => { st with spans := updateSpan st.spans sid (f s) }

/-- Modelled from the spec: lcbtrace_span_add_tag_str upserts a string tag. -/
def lcbtrace_span_add_tag_str (st : Engine) (sid : Nat) (name : String) (v : String) : Engine :=
  modifySpan st sid (fun s => { s with tags := addTag s.tags name (TagValue.str v) })

/-- Modelled from the spec: lcbtrace_span_add_tag_uint64 upserts an integer tag. -/
def lcbtrace_span_add_tag_uint64 (st : Engine) (sid : Nat) (name : String) (v : Nat) : Engine :=
  modifySpan st sid (fun s => { s with tags := addTag s.tags name (TagValue.uint v) })

/-- Modelled from the spec: lcbtrace_span_add_tag_double upserts a double tag, the
payload kept as its bit representation. -/
def lcbtrace_span_add_tag_double (st : Engine) (sid : Nat) (name : String) (v : Nat) : Engine :=
  modifySpan st sid (fun s => { s with tags := addTag s.tags name (TagValue.dbl v) })

/-- Modelled from the spec: lcbtrace_span_add_tag_bool upserts a boolean tag. -/
def lcbtrace_span_add_tag_bool (st : Engine) (sid : Nat) (name : String) (v : Bool) : Engine :=
  modifySpan st sid (fun s => { s with tags := addTag s.tags name (TagValue.boolean v) })

/-- Modelled from the header: lcbtrace_span_set_is_outer sets the outer role flag. -/
def lcbtrace_span_set_is_outer (st : Engine) (sid : Nat) (b : Bool) : Engine :=
  modifySpan st sid (fun s => { s with is_outer := b })

/-- Modelled from the header: lcbtrace_span_set_is_encode sets the encode role flag. -/
def lcbtrace_span_set_is_encode (st : Engine) (sid : Nat) (b : Bool) : Engine :=
  modifySpan st sid (fun s => { s with is_encode := b })

/-- Modelled from the header: lcbtrace_span_set_is_dispatch sets the dispatch role flag. -/
def lcbtrace_span_set_is_dispatch (st : Engine) (sid : Nat) (b : Bool) : Engine :=
  modifySpan st sid (fun s => { s with is_dispatch := b })

/-- Modelled from the spec: the caller marks a span orphaned when the owning request
was abandoned before a server response. -/
def lcbtrace_span_set_orphaned (st : Engine) (sid : Nat) (b : Bool) : Engine :=
  modifySpan st sid (fun s => { s with orphaned := b })

/-- Modelled from the header: lcbtrace_span_set_service sets the service classification. -/
def lcbtrace_span_set_service (st : Engine) (sid : Nat) (svc : SERVICE) : Engine :=
  modifySpan st sid (fun s => { s with service := some svc })

/-- Modelled from the header: lcb_set_tracer swaps the active tracer of the instance. -/
def lcb_set_tracer (st : Engine) (t : Tracer) : Engine :=
  { st with tracer := t }

/-- Advance the monotone wall clock by dt microseconds. -/
def tick (st : Engine) (dt : Nat) : Engine :=
  { st with clock := st.clock + dt }

/-- Command alphabet of the tracing facade, one constructor per API entry point used
by the request layer, plus clock advance. -/
inductive Cmd
  | tick (dt : Nat)
  | setTracer (t : Tracer)
  | start (op : String) (now : Option Nat) (pref : Option Nat)
  | finish (sid : Nat) (now : Option Nat)
  | tagS (sid : Nat) (name : String) (v : String)
  | tagU (sid : Nat) (name : String) (v : Nat)
  | tagD (sid : Nat) (name : String) (v : Nat)
  | tagB (sid : Nat) (name : String) (v : Bool)
  | setOuter (sid : Nat) (b : Bool)
  | setEncode (sid : Nat) (b : Bool)
  | setDispatch (sid : Nat) (b : Bool)
  | setOrphaned (sid : Nat) (b : Bool)
  | setService (sid : Nat) (svc : SERVICE)

/-- Interpretation of one command on the engine state. -/
def stepCmd (st : Engine) : Cmd → Engine
  | Cmd.tick dt => tick st dt
  | Cmd.setTracer t => lcb_set_tracer st t
  | Cmd.start op now pref => (lcbtrace_span_start st op now pref).1
  | Cmd.finish sid now => (lcbtrace_span_finish st sid now).1
  | Cmd.tagS sid name v => lcbtrace_span_add_tag_str st sid name v
  | Cmd.tagU sid name v => lcbtrace_span_add_tag_uint64 st sid name v
  | Cmd.tagD sid name v => lcbtrace_span_add_tag_double st sid name v
  | Cmd.tagB sid name v => lcbtrace_span_add_tag_bool st sid name v
  | Cmd.setOuter sid b => lcbtrace_span_set_is_outer st sid b
  | Cmd.setEncode sid b => lcbtrace_span_set_is_encode st sid b
  | Cmd.setDispatch sid b => lcbtrace_span_set_is_dispatch st sid b
  | Cmd.setOrphaned sid b => lcbtrace_span_set_orphaned st sid b
  | Cmd.setService sid svc => lcbtrace_span_set_service st sid svc

/-- Fresh engine of a client instance with the given initial tracer. -/
def initEngine (t : Tracer) : Engine :=
  { spans := fun _ => none, nextId := 0, clock := 0, tracer := t, reports := [] }

/-- Run a command sequence from the fresh engine. -/
def runE (t : Tracer) (cs : List Cmd) : Engine :=
  cs.foldl stepCmd (initEngine t)

/-- Root ancestor of a span, following parent links upwards; the fuel argument bounds
the length of the chain (parent indices strictly decrease, so fuel sid + 1 suffices). -/
def rootSpan (st : Engine) : Nat → Nat → Option (Nat × Span)
  | 0, _ => none
  | fuel + 1, sid =>
    match st.spans sid with
    | none => none
    | some s =>
      match s.parent with
      | none => some (sid, s)
      | some pid => rootSpan st fuel pid

/-- Structural invariant of reachable engine states: allocated indices are below the
counter and record their own id, parent links point downwards to existing spans,
trace ids are inherited from the parent and equal the own id at roots, tag tables
have unique keys, every span is reported at most once, and reported spans are
finished. -/
structure Inv (st : Engine) : Prop where
  dom : ∀ sid s, st.spans sid = some s → sid < st.nextId ∧ s.span_id = sid
  parentLt : ∀ sid s pid, st.spans sid = some s → s.parent = some pid →
    pid < sid ∧ ∃ p, st.spans pid = some p
  traceInherit : ∀ sid s pid p, st.spans sid = some s → s.parent = some pid →
    st.spans pid = some p → s.trace_id = p.trace_id
  rootTrace : ∀ sid s, st.spans sid = some s → s.parent = none → s.trace_id = sid
  tagsNodup : ∀ sid s, st.spans sid = some s → (tagKeys s.tags).Nodup
  reportOnce : ∀ sid, st.reports.countP (fun rp => decide (rp.1 = sid)) ≤ 1
  reportFinished : ∀ sid tid, (sid, tid) ∈ st.reports →
    ∃ s, st.spans sid = some s ∧ s.finish_ts.isSome = true

/-- Timestamp discipline: the command takes its timestamps from the clock (the
LCBTRACE_NOW path) rather than passing an explicit value. -/
def usesClock : Cmd → Bool
  | Cmd.start _ now _ => now.isNone
  | Cmd.finish _ now => now.isNone
  | _ => true

/-- Clock-order invariant for the timestamp ordering property: start timestamps are
no later than the clock, and finish timestamps are no earlier than the start. -/
def WTInv (st : Engine) : Prop :=
  ∀ sid s, st.spans sid = some s →
    s.start_ts ≤ st.clock ∧ ∀ u, s.finish_ts = some u → s.start_ts ≤ u

/-! ### ThresholdOrphanTracer

Modelled from the spec: the built-in threshold logging tracer requested through
LCBTRACE_F_THRESHOLD in lcbtrace_new.  Its implementation is not in the source tree;
the model follows the spec: each reported outer span is classified into a service
bucket (none meaning unclassified), buckets keep a bounded top-K list ordered by
descending duration with ties broken in favour of the earlier inserted span, a span
enters its bucket only when its duration exceeds the configured per-service threshold,
and orphaned spans are additionally tracked in a separate bounded list with the same
top-K-by-duration eviction rule and without any threshold test. -/

/-- Report record handed to the threshold tracer for one finished outer span:
service classification, duration (finish minus start timestamp) and orphaned flag. -/
structure TRec where
  service : Option SERVICE
  dur : Nat
  orphaned : Bool
deriving DecidableEq

/-- Lightweight summary entry retained by the threshold tracer; seq is the insertion
sequence number of the report, used to break duration ties deterministically. -/
structure TEntry where
  seq : Nat
  service : Option SERVICE
  dur : Nat
  orphaned : Bool
deriving DecidableEq

/-- Summary entry of the report with the given sequence number. -/
def toEntry (r : TRec) (seq : Nat) : TEntry :=
  { seq := seq, service := r.service, dur := r.dur, orphaned := r.orphaned }

/-- Retention priority as a total preorder: longer duration first, and among equal
durations the earlier inserted entry first. -/
def beatsLe (a b : TEntry) : Prop :=
  b.dur < a.dur ∨ (a.dur = b.dur ∧ a.seq ≤ b.seq)

instance : DecidableRel beatsLe := fun a b =>
  inferInstanceAs (Decidable (b.dur < a.dur ∨ (a.dur = b.dur ∧ a.seq ≤ b.seq)))

instance : IsTotal TEntry beatsLe :=
  ⟨fun a b => by
    unfold beatsLe
    rcases Nat.lt_trichotomy a.dur b.dur with h | h | h
    · exact Or.inr (Or.inl h)
    · rcases Nat.le_total a.seq b.seq with hs | hs
      · exact Or.inl (Or.inr ⟨h, hs⟩)
      · exact Or.inr (Or.inr ⟨h.symm, hs⟩)
    · exact Or.inl (Or.inl h)⟩

instance : IsTrans TEntry beatsLe :=
  ⟨fun a b c hab hbc => by
    unfold beatsLe at *
    rcases hab with h1 | ⟨h1, h1s⟩ <;> rcases hbc with h2 | ⟨h2, h2s⟩ <;>
      first
        | exact Or.inl (by omega)
        | exact Or.inr ⟨by omega, by omega⟩⟩

/-- Strict retention priority: strictly longer duration, or equal duration and
strictly earlier insertion. -/
def beats (a b : TEntry) : Prop :=
  b.dur < a.dur ∨ (a.dur = b.dur ∧ a.seq < b.seq)

instance : DecidableRel beats := fun a b =>
  inferInstanceAs (Decidable (b.dur < a.dur ∨ (a.dur = b.dur ∧ a.seq < b.seq)))

theorem beats_of_beatsLe {a b : TEntry} (h : beatsLe a b) (hne : a.seq ≠ b.seq) : beats a b := by
  unfold beatsLe at h
  unfold beats
  rcases h with h | ⟨h1, h2⟩
  · exact Or.inl h
  · exact Or.inr ⟨h1, lt_of_le_of_ne h2 hne⟩

/-- Modelled from the spec: duration-ordered insertion into a bucket list kept in
descending duration order; a new entry goes after all entries with duration at least
its own, so the earlier inserted span wins duration ties. -/
def insDur (x : TEntry) : List TEntry → List TEntry
  | [] => [x]
  | y :: ys => if y.dur < x.dur then x :: y :: ys else y :: insDur x ys

/-- Modelled from the spec: bounded top-K insertion, truncating the duration-ordered
list to K entries and thereby evicting the smallest-duration entry. -/
def thrInsert (K : Nat) (l : List TEntry) (x : TEntry) : List TEntry :=
  (insDur x l).take K

/-- Modelled from the spec: configuration of the threshold tracer: bound K of each
service bucket, bound M of the orphan list, and the per-service duration thresholds
(the unclassified bucket uses the default threshold, the none case). -/
structure TConfig where
  K : Nat
  M : Nat
  threshold : Option SERVICE → Nat

/-- Modelled from the spec: accumulator state of the threshold tracer between flushes. -/
structure TState where
  buckets : Option SERVICE → List TEntry
  orphans : List TEntry
  nextSeq : Nat

/-- Empty accumulator. -/
def initT : TState :=
  { buckets := fun _ => [], orphans := [], nextSeq := 0 }

/-- Modelled from the spec: the report path of the threshold tracer for one finished
outer span.  The span enters its service bucket exactly when its duration exceeds the
configured threshold of that bucket; an orphaned span additionally enters the bounded
orphan list regardless of service classification and of any threshold.  A span below
threshold and not orphaned is discarded immediately. -/
def toReport (cfg : TConfig) (st : TState) (r : TRec) : TState :=
  { buckets := fun b =>
      if r.service = b ∧ cfg.threshold r.service < r.dur then
        thrInsert cfg.K (st.buckets b) (toEntry r st.nextSeq)
      else st.buckets b
    orphans :=
      if r.orphaned then thrInsert cfg.M st.orphans (toEntry r st.nextSeq) else st.orphans
    nextSeq := st.nextSeq + 1 }

/-- Run the threshold tracer over a sequence of reported outer spans. -/
def runT (cfg : TConfig) (rs : List TRec) : TState :=
  rs.foldl (toReport cfg) initT

/-- Summary entries of a report sequence, sequence numbers starting at k. -/
def entriesFrom (k : Nat) : List TRec → List TEntry
  | [] => []
  | r :: rs => toEntry r k :: entriesFrom (k + 1) rs

/-- Reports of the sequence that qualify for the bucket b: classified into b and with
duration exceeding the threshold of b. -/
def qualEntries (cfg : TConfig) (b : Option SERVICE) (rs : List TRec) : List TEntry :=
  (entriesFrom 0 rs).filter (fun e => decide (e.service = b) && decide (cfg.threshold b < e.dur))

/-- Orphaned reports of the sequence. -/
def orphEntries (rs : List TRec) : List TEntry :=
  (entriesFrom 0 rs).filter (fun e => e.orphaned)

/-! ### Concrete inputs used by the closed witness and counterexample theorems -/

/-- Example threshold tracer configuration: buckets bounded by 2, orphan list bounded
by 2, all thresholds 10 microseconds. -/
def exCfg : TConfig := { K := 2, M := 2, threshold := fun _ => 10 }

/-- Example report sequence with a duration tie between the first and third report. -/
def exReports : List TRec :=
  [ { service := some SERVICE.kv, dur := 100, orphaned := false },
    { service := some SERVICE.kv, dur := 50, orphaned := false },
    { service := some SERVICE.kv, dur := 100, orphaned := false },
    { service := some SERVICE.kv, dur := 5, orphaned := false } ]

/-- Entry of the first example report. -/
def eW0 : TEntry := { seq := 0, service := some SERVICE.kv, dur := 100, orphaned := false }

/-- Entry of the second example report. -/
def eW1 : TEntry := { seq := 1, service := some SERVICE.kv, dur := 50, orphaned := false }

/-- Example report sequence with one below-threshold non-orphaned report and one
orphaned report. -/
def rs3w : List TRec :=
  [ { service := some SERVICE.kv, dur := 5, orphaned := false },
    { service := none, dur := 50, orphaned := true } ]

/-- First record of rs3w. -/
def rW : TRec := { service := some SERVICE.kv, dur := 5, orphaned := false }

/-- Entry of the orphaned record of rs3w. -/
def eW2 : TEntry := { seq := 1, service := none, dur := 50, orphaned := true }

/-- Configuration with orphan list bounded by a single entry. -/
def cfgM1 : TConfig := { K := 2, M := 1, threshold := fun _ => 0 }

/-- Two orphaned reports, the second of smaller duration. -/
def rsOrph : List TRec :=
  [ { service := none, dur := 10, orphaned := true },
    { service := none, dur := 5, orphaned := true } ]

/-- Simple reporter tracer with id 0. -/
def trA : Tracer := { tid := 0, externalV1 := false }

/-- Simple reporter tracer with id 1. -/
def trB : Tracer := { tid := 1, externalV1 := false }

/-- External v1-callback tracer with id 2. -/
def trV1 : Tracer := { tid := 2, externalV1 := true }

/-- One outer span started and finished through the clock path. -/
def cs1 : List Cmd := [Cmd.start "get" none none, Cmd.setOuter 0 true, Cmd.finish 0 none]

/-- Span 0 as created by the first command of cs1 under trA. -/
def spanW : Span :=
  { span_id := 0, trace_id := 0, operation := "get", ctracer := 0, start_ts := 0,
    finish_ts := none, parent := none, service := none, is_outer := false,
    is_encode := false, is_dispatch := false, orphaned := false, tags := [] }

/-- Dispatch child with one tag, finished under an external v1 tracer. -/
def cs4 : List Cmd :=
  [Cmd.start "get" none none, Cmd.start "dispatch" none (some 0),
   Cmd.setDispatch 1 true, Cmd.tagS 1 "net.peer.port" "11210", Cmd.finish 1 none]

/-- Dispatch child carrying one tag of each of the four value types. -/
def cs4w : List Cmd :=
  [Cmd.start "get" none none, Cmd.start "dispatch" none (some 0),
   Cmd.setDispatch 1 true, Cmd.tagS 1 "net.peer.name" "remote",
   Cmd.tagU 1 "net.peer.port" 11210, Cmd.tagD 1 "lat" 77, Cmd.tagB 1 "ok" true]

/-- Span 1 after running cs4w under trA. -/
def c4span : Span :=
  { span_id := 1, trace_id := 0, operation := "dispatch", ctracer := 0, start_ts := 0,
    finish_ts := none, parent := some 0, service := none, is_outer := false,
    is_encode := false, is_dispatch := true, orphaned := false,
    tags := [("net.peer.name", TagValue.str "remote"),
             ("net.peer.port", TagValue.uint 11210),
             ("lat", TagValue.dbl 77), ("ok", TagValue.boolean true)] }

/-- A parent with two encode-flagged children. -/
def cs5 : List Cmd :=
  [Cmd.start "get" none none,
   Cmd.start "request_encoding" none (some 0), Cmd.setEncode 1 true,
   Cmd.start "request_encoding" none (some 0), Cmd.setEncode 2 true]

/-- First encode child of cs5. -/
def c5child1 : Span :=
  { span_id := 1, trace_id := 0, operation := "request_encoding", ctracer := 0,
    start_ts := 0, finish_ts := none, parent := some 0, service := none,
    is_outer := false, is_encode := true, is_dispatch := false, orphaned := false,
    tags := [] }

/-- Second encode child of cs5. -/
def c5child2 : Span := { c5child1 with span_id := 2 }

/-- A child flagged both encode and dispatch that itself carries a tag named
total_encode_duration, finished under a non-v1 tracer: the dispatch copy overwrites
the accumulated value of the parent before the encode increment. -/
def cs5x : List Cmd :=
  [Cmd.start "get" none none,
   Cmd.start "request_encoding" none (some 0),
   Cmd.setEncode 1 true, Cmd.setDispatch 1 true,
   Cmd.tagU 1 "total_encode_duration" 1000,
   Cmd.tick 7, Cmd.finish 1 none]

/-- A parent and a child, for the trace id witness. -/
def cs6 : List Cmd := [Cmd.start "get" none none, Cmd.start "dispatch" none (some 0)]

/-- Child span of cs6. -/
def c6child : Span :=
  { span_id := 1, trace_id := 0, operation := "dispatch", ctracer := 0, start_ts := 0,
    finish_ts := none, parent := some 0, service := none, is_outer := false,
    is_encode := false, is_dispatch := false, orphaned := false, tags := [] }

/-- Clock-path trace finishing span 0 at time 5. -/
def csW : List Cmd := [Cmd.start "get" none none, Cmd.tick 5, Cmd.finish 0 none]

/-- Span 0 after csW under trA. -/
def c7span : Span :=
  { span_id := 0, trace_id := 0, operation := "get", ctracer := 0, start_ts := 0,
    finish_ts := some 5, parent := none, service := none, is_outer := false,
    is_encode := false, is_dispatch := false, orphaned := false, tags := [] }

/-- Explicit caller timestamps out of order: start at 100, finish at 50. -/
def cs7 : List Cmd := [Cmd.start "get" (some 100) none, Cmd.finish 0 (some 50)]

/-- One outer span, created under the tracer trA and not yet finished. -/
def cs8 : List Cmd := [Cmd.start "get" none none, Cmd.setOuter 0 true]

/-- Span 0 after cs8 under trA. -/
def c8span : Span := { spanW with is_outer := true }

/-- Dispatch and encode flagged child finished under an external v1 tracer. -/
def cs10 : List Cmd :=
  [Cmd.start "get" none none, Cmd.start "dispatch" none (some 0),
   Cmd.setDispatch 1 true, Cmd.setEncode 1 true, Cmd.tick 5, Cmd.finish 1 none]

/-- Parent with an existing tag and a dispatch-only child, under an external v1 tracer. -/
def cs10w : List Cmd :=
  [Cmd.start "get" none none, Cmd.tagS 0 "existing" "x",
   Cmd.start "dispatch" none (some 0), Cmd.setDispatch 1 true, Cmd.tagS 1 "k" "v"]

/-- Parent span of cs10w under trV1. -/
def c10parent : Span :=
  { spanW with ctracer := 2, tags := [("existing", TagValue.str "x")] }

/-- Child span of cs10w under trV1. -/
def c10child : Span :=
  { span_id := 1, trace_id := 0, operation := "dispatch", ctracer := 2, start_ts := 0,
    finish_ts := none, parent := some 0, service := none, is_outer := false,
    is_encode := false, is_dispatch := true, orphaned := false,
    tags := [("k", TagValue.str "v")] }

/-! ### Correctness of the bounded top-K retention -/

theorem orderedInsert_comm_core {a b : TEntry} (h1 : beatsLe a b) (h2 : ¬ beatsLe b a) :
    ∀ l : List TEntry,
      List.orderedInsert beatsLe a (List.orderedInsert beatsLe b l)
        = List.orderedInsert beatsLe b (List.orderedInsert beatsLe a l) := by
  intro l
  induction l with
  | nil =>
    simp only [List.orderedInsert]
    rw [if_pos h1, if_neg h2]
  | cons y ys ih =>
    by_cases hby : beatsLe b y
    · have hay : beatsLe a y := IsTrans.trans a b y h1 hby
      simp only [List.orderedInsert]
      rw [if_pos hby, if_pos hay]
      simp only [List.orderedInsert]
      rw [if_pos h1, if_neg h2, if_pos hby]
    · by_cases hay : beatsLe a y
      · simp only [List.orderedInsert]
        rw [if_neg hby, if_pos hay]
        simp only [List.orderedInsert]
        rw [if_pos hay, if_neg h2, if_neg hby]
      · simp only [List.orderedInsert]
        rw [if_neg hby, if_neg hay]
        simp only [List.orderedInsert]
        rw [if_neg hay, if_neg hby]
        rw [ih]

theorem beatsLe_antisymm_seq {a b : TEntry} (h1 : beatsLe a b) (h2 : beatsLe b a) :
    a.seq = b.seq := by
  unfold beatsLe at h1 h2
  omega

theorem orderedInsert_comm {a b : TEntry} (hne : a.seq ≠ b.seq) (l : List TEntry) :
    List.orderedInsert beatsLe a (List.orderedInsert beatsLe b l)
      = List.orderedInsert beatsLe b (List.orderedInsert beatsLe a l) := by
  rcases total_of beatsLe a b with h | h
  · have h2 : ¬ beatsLe b a := fun hba => hne (beatsLe_antisymm_seq h hba)
    exact orderedInsert_comm_core h h2 l
  · have h2 : ¬ beatsLe a b := fun hab => hne (beatsLe_antisymm_seq hab h)
    exact (orderedInsert_comm_core h h2 l).symm

theorem insertionSort_append_last (x : TEntry) :
    ∀ l : List TEntry, (∀ e ∈ l, e.seq ≠ x.seq) →
      List.insertionSort beatsLe (l ++ [x])
        = List.orderedInsert beatsLe x (List.insertionSort beatsLe l) := by
  intro l
  induction l with
  | nil => intro _; rfl
  | cons e rest ih =>
    intro h
    have hrest : ∀ y ∈ rest, y.seq ≠ x.seq := fun y hy => h y (List.mem_cons_of_mem e hy)
    calc List.insertionSort beatsLe ((e :: rest) ++ [x])
        = List.orderedInsert beatsLe e (List.insertionSort beatsLe (rest ++ [x])) := rfl
      _ = List.orderedInsert beatsLe e
            (List.orderedInsert beatsLe x (List.insertionSort beatsLe rest)) := by
            rw [ih hrest]
      _ = List.orderedInsert beatsLe x
            (List.orderedInsert beatsLe e (List.insertionSort beatsLe rest)) := by
            exact orderedInsert_comm (h e (List.mem_cons_self e rest)) _
      _ = List.orderedInsert beatsLe x (List.insertionSort beatsLe (e :: rest)) := rfl

theorem take_orderedInsert (r : TEntry → TEntry → Prop) [DecidableRel r] (x : TEntry) :
    ∀ (l : List TEntry) (K : Nat),
      (List.orderedInsert r x l).take K = (List.orderedInsert r x (l.take K)).take K := by
  intro l
  induction l with
  | nil => intro K; simp
  | cons y ys ih =>
    intro K
    match K with
    | 0 => simp
    | Nat.succ k =>
      by_cases h : r x y
      · simp only [List.orderedInsert, if_pos h, List.take_succ_cons]
        congr 1
        conv_rhs => rw [← List.take_succ_cons, List.take_take]
        rw [Nat.min_eq_left (Nat.le_succ k)]
      · simp only [List.orderedInsert, if_neg h, List.take_succ_cons]
        rw [ih k]

theorem insDur_eq_orderedInsert (x : TEntry) :
    ∀ l : List TEntry, (∀ y ∈ l, y.seq < x.seq) →
      insDur x l = List.orderedInsert beatsLe x l := by
  intro l
  induction l with
  | nil => intro _; rfl
  | cons y ys ih =>
    intro h
    have hy : y.seq < x.seq := h y (List.mem_cons_self y ys)
    have hcond : (y.dur < x.dur) ↔ beatsLe x y := by
      constructor
      · exact fun hd => Or.inl hd
      · rintro (hd | ⟨_, hs⟩)
        · exact hd
        · omega
    by_cases hd : y.dur < x.dur
    · simp only [insDur, List.orderedInsert, if_pos hd, if_pos (hcond.mp hd)]
    · have hb : ¬ beatsLe x y := fun hby => hd (hcond.mpr hby)
      simp only [insDur, List.orderedInsert, if_neg hd, if_neg hb]
      rw [ih (fun z hz => h z (List.mem_cons_of_mem y hz))]

theorem mem_insDur {a x : TEntry} : ∀ {l : List TEntry}, a ∈ insDur x l → a = x ∨ a ∈ l := by
  intro l
  induction l with
  | nil => intro h; simp [insDur] at h; exact Or.inl h
  | cons y ys ih =>
    intro h
    simp only [insDur] at h
    by_cases hd : y.dur < x.dur
    · rw [if_pos hd] at h
      rcases List.mem_cons.mp h with h | h
      · exact Or.inl h
      · exact Or.inr h
    · rw [if_neg hd] at h
      rcases List.mem_cons.mp h with h | h
      · exact Or.inr (h ▸ List.mem_cons_self y ys)
      · rcases ih h with h | h
        · exact Or.inl h
        · exact Or.inr (List.mem_cons_of_mem y h)

theorem mem_thrInsert {a x : TEntry} {K : Nat} {l : List TEntry}
    (h : a ∈ thrInsert K l x) : a = x ∨ a ∈ l :=
  mem_insDur (List.take_subset K _ h)

theorem mem_foldl_thrInsert (K : Nat) :
    ∀ (es : List TEntry) (acc : List TEntry) (a : TEntry),
      a ∈ List.foldl (thrInsert K) acc es → a ∈ acc ∨ a ∈ es := by
  intro es
  induction es with
  | nil => intro acc a h; exact Or.inl h
  | cons x rest ih =>
    intro acc a h
    rcases ih (thrInsert K acc x) a h with h2 | h2
    · rcases mem_thrInsert h2 with h3 | h3
      · exact Or.inr (h3 ▸ List.mem_cons_self x rest)
      · exact Or.inl h3
    · exact Or.inr (List.mem_cons_of_mem x h2)

theorem length_foldl_thrInsert (K : Nat) :
    ∀ (es : List TEntry) (acc : List TEntry), acc.length ≤ K →
      (List.foldl (thrInsert K) acc es).length ≤ K := by
  intro es
  induction es with
  | nil => intro acc h; exact h
  | cons x rest ih =>
    intro acc _
    exact ih (thrInsert K acc x) (List.length_take_le K _)

theorem foldl_thrInsert_eq_sort (K : Nat) :
    ∀ es : List TEntry, es.Pairwise (fun a b => a.seq < b.seq) →
      List.foldl (thrInsert K) [] es = (List.insertionSort beatsLe es).take K := by
  intro es
  induction es using List.reverseRecOn with
  | nil => intro _; simp [List.insertionSort]
  | append_singleton l x ih =>
    intro h
    have hsplit := List.pairwise_append.mp h
    have hl : l.Pairwise (fun a b => a.seq < b.seq) := hsplit.1
    have hlt : ∀ e ∈ l, e.seq < x.seq := by
      intro e he
      exact hsplit.2.2 e he x (List.mem_singleton_self x)
    have hne : ∀ e ∈ l, e.seq ≠ x.seq := fun e he => Nat.ne_of_lt (hlt e he)
    have hmemB : ∀ y ∈ List.foldl (thrInsert K) [] l, y.seq < x.seq := by
      intro y hy
      rcases mem_foldl_thrInsert K l [] y hy with h2 | h2
      · exact absurd h2 (List.not_mem_nil y)
      · exact hlt y h2
    calc List.foldl (thrInsert K) [] (l ++ [x])
        = thrInsert K (List.foldl (thrInsert K) [] l) x := by
          rw [List.foldl_append]; rfl
      _ = (insDur x ((List.insertionSort beatsLe l).take K)).take K := by
          rw [thrInsert, ih hl]
      _ = (List.orderedInsert beatsLe x ((List.insertionSort beatsLe l).take K)).take K := by
          rw [insDur_eq_orderedInsert x _ (by rw [← ih hl]; exact hmemB)]
      _ = (List.orderedInsert beatsLe x (List.insertionSort beatsLe l)).take K := by
          rw [← take_orderedInsert]
      _ = (List.insertionSort beatsLe (l ++ [x])).take K := by
          rw [insertionSort_append_last x l hne]

/-! ### Characterisation of the tracer run -/

theorem entriesFrom_append_one (r : TRec) :
    ∀ (rs : List TRec) (k : Nat),
      entriesFrom k (rs ++ [r]) = entriesFrom k rs ++ [toEntry r (k + rs.length)] := by
  intro rs
  induction rs with
  | nil => intro k; simp [entriesFrom]
  | cons r2 rest ih =>
    intro k
    show toEntry r2 k :: entriesFrom (k + 1) (rest ++ [r])
        = (toEntry r2 k :: entriesFrom (k + 1) rest) ++ [toEntry r (k + (r2 :: rest).length)]
    rw [List.cons_append, ih (k + 1)]
    have hlen : k + (r2 :: rest).length = k + 1 + rest.length := by
      rw [List.length_cons]; omega
    rw [hlen]

theorem mem_entriesFrom {e : TEntry} :
    ∀ {rs : List TRec} {k : Nat}, e ∈ entriesFrom k rs →
      ∃ j r, rs.get? j = some r ∧ e = toEntry r (k + j) := by
  intro rs
  induction rs with
  | nil => intro k h; exact absurd h (List.not_mem_nil e)
  | cons r rest ih =>
    intro k h
    rcases List.mem_cons.mp h with h | h
    · exact ⟨0, r, rfl, by rw [h]; rfl⟩
    · rcases ih h with ⟨j, r2, hget, he⟩
      refine ⟨j + 1, r2, hget, ?_⟩
      rw [he]
      have : k + 1 + j = k + (j + 1) := by omega
      rw [this]

theorem entriesFrom_pairwise : ∀ (rs : List TRec) (k : Nat),
    (entriesFrom k rs).Pairwise (fun a b => a.seq < b.seq) := by
  intro rs
  induction rs with
  | nil => intro k; exact List.Pairwise.nil
  | cons r rest ih =>
    intro k
    refine List.Pairwise.cons ?_ (ih (k + 1))
    intro b hb
    rcases mem_entriesFrom hb with ⟨j, r2, _, he⟩
    have hb2 : b.seq = k + 1 + j := by rw [he]; rfl
    have hk : (toEntry r k).seq = k := rfl
    omega

theorem runT_append_one (cfg : TConfig) (rs : List TRec) (r : TRec) :
    runT cfg (rs ++ [r]) = toReport cfg (runT cfg rs) r := by
  simp [runT, List.foldl_append]

theorem nextSeq_toReport (cfg : TConfig) (st : TState) (r : TRec) :
    (toReport cfg st r).nextSeq = st.nextSeq + 1 := rfl

theorem nextSeq_runT (cfg : TConfig) : ∀ rs : List TRec, (runT cfg rs).nextSeq = rs.length := by
  intro rs
  induction rs using List.reverseRecOn with
  | nil => rfl
  | append_singleton l r ih =>
    rw [runT_append_one, nextSeq_toReport, ih, List.length_append, List.length_cons,
      List.length_nil]

theorem buckets_toReport (cfg : TConfig) (st : TState) (r : TRec) (b : Option SERVICE) :
    (toReport cfg st r).buckets b =
      if r.service = b ∧ cfg.threshold r.service < r.dur then
        thrInsert cfg.K (st.buckets b) (toEntry r st.nextSeq)
      else st.buckets b := rfl

theorem orphans_toReport (cfg : TConfig) (st : TState) (r : TRec) :
    (toReport cfg st r).orphans =
      if r.orphaned then thrInsert cfg.M st.orphans (toEntry r st.nextSeq) else st.orphans := rfl

theorem buckets_runT (cfg : TConfig) (b : Option SERVICE) :
    ∀ rs : List TRec,
      (runT cfg rs).buckets b = List.foldl (thrInsert cfg.K) [] (qualEntries cfg b rs) := by
  intro rs
  induction rs using List.reverseRecOn with
  | nil => rfl
  | append_singleton l r ih =>
    rw [runT_append_one, buckets_toReport, nextSeq_runT]
    have hq : qualEntries cfg b (l ++ [r]) =
        qualEntries cfg b l ++
          (if r.service = b ∧ cfg.threshold r.service < r.dur then [toEntry r l.length]
           else []) := by
      simp only [qualEntries, entriesFrom_append_one, List.filter_append, Nat.zero_add]
      congr 1
      by_cases h1 : r.service = b
      · by_cases h2 : cfg.threshold r.service < r.dur
        · have h2b : cfg.threshold b < r.dur := by rw [← h1]; exact h2
          rw [if_pos ⟨h1, h2⟩]
          simp [List.filter, toEntry, h1, h2b]
        · have h2b : ¬ cfg.threshold b < r.dur := by rw [← h1]; exact h2
          rw [if_neg (fun hc => h2 hc.2)]
          simp [List.filter, toEntry, h1, h2b]
      · rw [if_neg (fun hc => h1 hc.1)]
        simp [List.filter, toEntry, h1]
    by_cases hc : r.service = b ∧ cfg.threshold r.service < r.dur
    · rw [if_pos hc, hq, if_pos hc, ih, List.foldl_append]
      rfl
    · rw [if_neg hc, hq, if_neg hc, List.append_nil, ih]

theorem orphans_runT (cfg : TConfig) :
    ∀ rs : List TRec,
      (runT cfg rs).orphans = List.foldl (thrInsert cfg.M) [] (orphEntries rs) := by
  intro rs
  induction rs using List.reverseRecOn with
  | nil => rfl
  | append_singleton l r ih =>
    rw [runT_append_one, orphans_toReport, nextSeq_runT]
    have hq : orphEntries (l ++ [r]) =
        orphEntries l ++ (if r.orphaned then [toEntry r l.length] else []) := by
      simp only [orphEntries, entriesFrom_append_one, List.filter_append, Nat.zero_add]
      congr 1
      by_cases ho : r.orphaned
      · simp [List.filter, toEntry, ho]
      · simp [List.filter, toEntry, ho]
    by_cases ho : r.orphaned
    · rw [if_pos ho, hq, if_pos ho, ih, List.foldl_append]
      rfl
    · rw [if_neg ho, hq, if_neg ho, List.append_nil, ih]

theorem topK_retained (K : Nat) (es : List TEntry)
    (hp : es.Pairwise (fun a c => a.seq < c.seq)) :
    (∀ e, e ∈ List.foldl (thrInsert K) [] es → e ∈ es) ∧
    (List.foldl (thrInsert K) [] es).length = min K es.length ∧
    (∀ x, x ∈ List.foldl (thrInsert K) [] es → ∀ y, y ∈ es →
      y ∉ List.foldl (thrInsert K) [] es → beats x y) := by
  have hchar := foldl_thrInsert_eq_sort K es hp
  rw [hchar]
  have hperm := List.perm_insertionSort beatsLe es
  refine ⟨?_, ?_, ?_⟩
  · intro e he
    exact hperm.subset (List.take_subset K _ he)
  · rw [List.length_take, hperm.length_eq]
  · intro x hx y hy hyn
    have hysort : y ∈ List.insertionSort beatsLe es := hperm.mem_iff.mpr hy
    have hsorted : List.Pairwise beatsLe (List.insertionSort beatsLe es) :=
      List.sorted_insertionSort beatsLe es
    have hne : List.Pairwise (fun a c => a.seq ≠ c.seq) (List.insertionSort beatsLe es) :=
      (hperm.pairwise_iff (fun h => Ne.symm h)).mpr (hp.imp (fun h => Nat.ne_of_lt h))
    have hsplit := List.take_append_drop K (List.insertionSort beatsLe es)
    have hydrop : y ∈ (List.insertionSort beatsLe es).drop K := by
      rcases List.mem_append.mp (by rw [hsplit]; exact hysort :
          y ∈ (List.insertionSort beatsLe es).take K
            ++ (List.insertionSort beatsLe es).drop K) with h | h
      · exact absurd h hyn
      · exact h
    rw [← hsplit] at hsorted hne
    have h1 := List.pairwise_append.mp hsorted
    have h2 := List.pairwise_append.mp hne
    exact beats_of_beatsLe (h1.2.2 x hx y hydrop) (h2.2.2 x hx y hydrop)

/-- C2: at every point of a sequence of reported outer spans, every service bucket of
the threshold tracer holds at most K entries; and after the whole sequence the
retained set of bucket b is exactly the K longest-duration reports among the reports
classified into b whose duration exceeds the threshold of b, with duration ties broken
in favour of the earlier inserted report: the bucket is contained in the qualifying
reports, its length is min K N where N is the number of qualifying reports, and every
retained entry strictly beats (longer duration, or equal duration and earlier
insertion) every qualifying report that is not retained. -/
theorem C2_bucket_topK (cfg : TConfig) (rs : List TRec) (b : Option SERVICE) :
    (∀ n : Nat, ((runT cfg (rs.take n)).buckets b).length ≤ cfg.K) ∧
    (∀ e, e ∈ (runT cfg rs).buckets b → e ∈ qualEntries cfg b rs) ∧
    ((runT cfg rs).buckets b).length = min cfg.K (qualEntries cfg b rs).length ∧
    (∀ x, x ∈ (runT cfg rs).buckets b → ∀ y, y ∈ qualEntries cfg b rs →
      y ∉ (runT cfg rs).buckets b → beats x y) := by
  have hp : (qualEntries cfg b rs).Pairwise (fun a c => a.seq < c.seq) :=
    (entriesFrom_pairwise rs 0).filter _
  have h := topK_retained cfg.K (qualEntries cfg b rs) hp
  refine ⟨?_, ?_, ?_, ?_⟩
  · intro n
    rw [buckets_runT]
    exact length_foldl_thrInsert cfg.K _ [] (Nat.zero_le _)
  · intro e he
    rw [buckets_runT] at he
    exact h.1 e he
  · rw [buckets_runT]
    exact h.2.1
  · intro x hx y hy hyn
    rw [buckets_runT] at hx hyn
    exact h.2.2 x hx y hy hyn

/-- Witness for C2 at a concrete configuration and report sequence with a duration
tie: the longest report with the earlier sequence number is retained, the
non-retained qualifying report is beaten by it, and a prefix bucket respects the
bound. -/
theorem C2_bucket_topK_witness :
    eW0 ∈ (runT exCfg exReports).buckets (some SERVICE.kv) ∧
    eW1 ∈ qualEntries exCfg (some SERVICE.kv) exReports ∧
    eW1 ∉ (runT exCfg exReports).buckets (some SERVICE.kv) ∧
    beats eW0 eW1 ∧
    ((runT exCfg (exReports.take 3)).buckets (some SERVICE.kv)).length ≤ exCfg.K :=
  have h := C2_bucket_topK exCfg exReports (some SERVICE.kv)
  ⟨by decide, by decide, by decide,
    h.2.2.2 eW0 (by decide) eW1 (by decide) (by decide), h.1 3⟩

/-- C3 (amended): a reported span whose duration does not exceed the threshold of its
service and whose orphaned flag is not set never appears in any retained bucket nor in
the orphan list; an orphaned span is inserted into the orphan list regardless of its
service classification and regardless of any duration threshold, its retention being
subject only to the bounded top-M-by-duration eviction rule: the orphan list is
exactly the M longest-duration orphaned reports with ties favouring earlier insertion,
and it is unchanged by any change of the thresholds or of the bucket bound. -/
theorem C3_threshold_orphan (cfg : TConfig) (rs : List TRec) (i : Nat) (r : TRec)
    (hget : rs.get? i = some r) :
    (¬ cfg.threshold r.service < r.dur → r.orphaned = false →
      (∀ b e, e ∈ (runT cfg rs).buckets b → e.seq ≠ i) ∧
      (∀ e, e ∈ (runT cfg rs).orphans → e.seq ≠ i)) ∧
    (runT cfg rs).orphans = (List.insertionSort beatsLe (orphEntries rs)).take cfg.M ∧
    (∀ cfg2 : TConfig, cfg2.M = cfg.M → (runT cfg2 rs).orphans = (runT cfg rs).orphans) := by
  refine ⟨?_, ?_, ?_⟩
  · intro hthr horph
    constructor
    · intro b e he hseq
      rw [buckets_runT] at he
      rcases mem_foldl_thrInsert cfg.K _ [] e he with h0 | h0
      · exact absurd h0 (List.not_mem_nil e)
      · have hmf := List.mem_filter.mp h0
        rcases mem_entriesFrom hmf.1 with ⟨j, r2, hj, he2⟩
        have hseq2 : e.seq = j := by rw [he2]; show 0 + j = j; omega
        have hji : j = i := by rw [← hseq2]; exact hseq
        have hr2 : r2 = r := by
          have := hj
          rw [hji, hget] at this
          exact (Option.some.inj this).symm
        have hcond := hmf.2
        simp only [Bool.and_eq_true, decide_eq_true_eq] at hcond
        have hdur : e.dur = r.dur := by rw [he2, hr2]; rfl
        have hsvc : e.service = r.service := by rw [he2, hr2]; rfl
        rw [hdur, hsvc] at hcond
        exact hthr (hcond.1 ▸ hcond.2)
    · intro e he hseq
      rw [orphans_runT] at he
      rcases mem_foldl_thrInsert cfg.M _ [] e he with h0 | h0
      · exact absurd h0 (List.not_mem_nil e)
      · have hmf := List.mem_filter.mp h0
        rcases mem_entriesFrom hmf.1 with ⟨j, r2, hj, he2⟩
        have hseq2 : e.seq = j := by rw [he2]; show 0 + j = j; omega
        have hji : j = i := by rw [← hseq2]; exact hseq
        have hr2 : r2 = r := by
          have := hj
          rw [hji, hget] at this
          exact (Option.some.inj this).symm
        have horp : e.orphaned = r.orphaned := by rw [he2, hr2]; rfl
        have := hmf.2
        rw [horp, horph] at this
        exact Bool.false_ne_true this
  · rw [orphans_runT]
    exact foldl_thrInsert_eq_sort cfg.M _ ((entriesFrom_pairwise rs 0).filter _)
  · intro cfg2 hM
    rw [orphans_runT, orphans_runT, hM]

/-- Counterexample to C3 as stated: with the orphan list bounded to a single entry,
the second orphaned report (duration 5, sequence number 1) is orphaned yet not
retained in the orphan list, which keeps only the earlier longer report. -/
theorem C3_counterexample :
    rsOrph.get? 1 = some { service := none, dur := 5, orphaned := true } ∧
    (runT cfgM1 rsOrph).orphans = [{ seq := 0, service := none, dur := 10, orphaned := true }] := by
  constructor
  · rfl
  · rfl

/-- Witness for C3 at a concrete input: a below-threshold non-orphaned report appears
neither in the orphan list, and the orphan list equals the sorted top-M of the
orphaned reports. -/
theorem C3_threshold_orphan_witness :
    rs3w.get? 0 = some rW ∧
    (¬ exCfg.threshold rW.service < rW.dur) ∧ rW.orphaned = false ∧
    eW2.seq ≠ 0 ∧
    (runT exCfg rs3w).orphans = (List.insertionSort beatsLe (orphEntries rs3w)).take exCfg.M :=
  have h := C3_threshold_orphan exCfg rs3w 0 rW (by decide)
  ⟨by decide, by decide, by decide,
    (h.1 (by decide) (by decide)).2 eW2 (by decide), h.2.1⟩

/-! ### Basic lemmas about the span engine -/

theorem updateSpan_self (f : Nat → Option Span) (sid : Nat) (s : Span) :
    updateSpan f sid s sid = some s := by
  simp [updateSpan]

theorem updateSpan_ne (f : Nat → Option Span) (sid : Nat) (s : Span) (j : Nat) (h : j ≠ sid) :
    updateSpan f sid s j = f j := by
  simp [updateSpan, h]

theorem getTag_addTag_self (t : TagTable) (n : String) (v : TagValue) :
    getTag (addTag t n v) n = some v := by
  induction t with
  | nil => simp [addTag, getTag]
  | cons hd tl ih =>
    obtain ⟨m, w⟩ := hd
    by_cases h : m = n
    · simp [addTag, getTag, h]
    · simp [addTag, getTag, h, ih]

theorem getTag_addTag_ne (t : TagTable) (n : String) (v : TagValue) (m : String)
    (h : m ≠ n) : getTag (addTag t n v) m = getTag t m := by
  have hnm : ¬ n = m := fun hh => h hh.symm
  induction t with
  | nil => simp [addTag, getTag, hnm]
  | cons hd tl ih =>
    obtain ⟨k, w⟩ := hd
    by_cases hk : k = n
    · subst hk
      have hkm : ¬ k = m := fun hh => h hh.symm
      simp [addTag, getTag, hkm]
    · by_cases hkm : k = m
      · subst hkm
        simp [addTag, getTag, hk]
      · simp [addTag, getTag, hk, hkm, ih]

theorem tagKeys_addTag (t : TagTable) (n : String) (v : TagValue) :
    tagKeys (addTag t n v) = if n ∈ tagKeys t then tagKeys t else tagKeys t ++ [n] := by
  induction t with
  | nil => simp [addTag, tagKeys]
  | cons hd tl ih =>
    obtain ⟨m, w⟩ := hd
    by_cases h : m = n
    · subst h
      have hmem : m ∈ tagKeys ((m, w) :: tl) := List.mem_cons_self m _
      rw [if_pos hmem]
      simp [addTag, tagKeys]
    · have hnm : n ≠ m := fun hh => h hh.symm
      have hcons : addTag ((m, w) :: tl) n v = (m, w) :: addTag tl n v := by
        simp [addTag, h]
      have hmemiff : (n ∈ tagKeys ((m, w) :: tl)) ↔ (n ∈ tagKeys tl) := by
        simp [tagKeys, List.mem_cons, hnm]
      have hkeys : tagKeys ((m, w) :: addTag tl n v) = m :: tagKeys (addTag tl n v) := rfl
      rw [hcons, hkeys, ih]
      by_cases hmem : n ∈ tagKeys tl
      · rw [if_pos hmem, if_pos (hmemiff.mpr hmem)]
        rfl
      · rw [if_neg hmem, if_neg (fun hc => hmem (hmemiff.mp hc))]
        rfl

theorem nodup_tagKeys_addTag (t : TagTable) (n : String) (v : TagValue)
    (h : (tagKeys t).Nodup) : (tagKeys (addTag t n v)).Nodup := by
  rw [tagKeys_addTag]
  by_cases hmem : n ∈ tagKeys t
  · rw [if_pos hmem]
    exact h
  · rw [if_neg hmem]
    rw [List.nodup_append]
    exact ⟨h, List.nodup_singleton n, by simp [hmem, List.disjoint_singleton]⟩

theorem getTag_copyTags_notmem (n : String) :
    ∀ (child pt : TagTable), n ∉ tagKeys child → getTag (copyTags child pt) n = getTag pt n := by
  intro child
  induction child with
  | nil => intro pt _; rfl
  | cons hd rest ih =>
    intro pt hn
    obtain ⟨m, w⟩ := hd
    have hmem : n ∉ tagKeys rest := by
      intro hc
      exact hn (List.mem_cons_of_mem m hc)
    have hne : n ≠ m := by
      intro hc
      exact hn (hc ▸ List.mem_cons_self m (tagKeys rest))
    have hstep : copyTags ((m, w) :: rest) pt = copyTags rest (addTag pt m w) := rfl
    rw [hstep, ih (addTag pt m w) hmem, getTag_addTag_ne pt m w n hne]

theorem getTag_copyTags (n : String) (v : TagValue) :
    ∀ (child pt : TagTable), (tagKeys child).Nodup → getTag child n = some v →
      getTag (copyTags child pt) n = some v := by
  intro child
  induction child with
  | nil => intro pt _ hv; exact absurd hv (by simp [getTag])
  | cons hd rest ih =>
    intro pt hnd hv
    obtain ⟨m, w⟩ := hd
    have hstep : copyTags ((m, w) :: rest) pt = copyTags rest (addTag pt m w) := rfl
    have hnd2 := List.nodup_cons.mp hnd
    by_cases h : m = n
    · subst h
      have hvw : v = w := by
        have : getTag ((m, w) :: rest) m = some w := by simp [getTag]
        rw [hv] at this
        exact Option.some.inj this
      subst hvw
      rw [hstep, getTag_copyTags_notmem m rest (addTag pt m v) hnd2.1,
        getTag_addTag_self]
    · have hv2 : getTag rest n = some v := by
        have : getTag ((m, w) :: rest) n = getTag rest n := by simp [getTag, h]
        rw [← this]
        exact hv
      rw [hstep]
      exact ih (addTag pt m w) hnd2.2 hv2

theorem nodup_tagKeys_copyTags :
    ∀ (child pt : TagTable), (tagKeys pt).Nodup → (tagKeys (copyTags child pt)).Nodup := by
  intro child
  induction child with
  | nil => intro pt h; exact h
  | cons hd rest ih =>
    intro pt h
    obtain ⟨m, w⟩ := hd
    have hstep : copyTags ((m, w) :: rest) pt = copyTags rest (addTag pt m w) := rfl
    rw [hstep]
    exact ih (addTag pt m w) (nodup_tagKeys_addTag pt m w h)

theorem nodup_tagKeys_dispatchTags (tr : Tracer) (child : Span) (pt : TagTable)
    (h : (tagKeys pt).Nodup) : (tagKeys (dispatchTags tr child pt)).Nodup := by
  unfold dispatchTags
  split
  · exact nodup_tagKeys_copyTags child.tags pt h
  · exact h

theorem nodup_tagKeys_encodeTags (child : Span) (pt : TagTable) (ft : Nat)
    (h : (tagKeys pt).Nodup) : (tagKeys (encodeTags child pt ft)).Nodup := by
  unfold encodeTags
  split
  · exact nodup_tagKeys_addTag _ _ _ h
  · exact h

theorem nodup_tagKeys_propagate (tr : Tracer) (child p : Span) (ft : Nat)
    (h : (tagKeys p.tags).Nodup) : (tagKeys (propagate tr child p ft).tags).Nodup := by
  show (tagKeys (encodeTags child (dispatchTags tr child p.tags) ft)).Nodup
  exact nodup_tagKeys_encodeTags child _ ft (nodup_tagKeys_dispatchTags tr child p.tags h)

theorem dispatchTags_copy (tr : Tracer) (child : Span) (pt : TagTable)
    (hd : child.is_dispatch = true) (hv : tr.externalV1 = false) :
    dispatchTags tr child pt = copyTags child.tags pt := by
  simp [dispatchTags, hd, hv]

theorem dispatchTags_skip_v1 (tr : Tracer) (child : Span) (pt : TagTable)
    (hv : tr.externalV1 = true) : dispatchTags tr child pt = pt := by
  simp [dispatchTags, hv]

theorem dispatchTags_skip (tr : Tracer) (child : Span) (pt : TagTable)
    (hd : child.is_dispatch = false) : dispatchTags tr child pt = pt := by
  simp [dispatchTags, hd]

theorem encodeTags_add (child : Span) (pt : TagTable) (ft : Nat)
    (he : child.is_encode = true) :
    encodeTags child pt ft = encodeAdd pt (ft - child.start_ts) := by
  simp [encodeTags, he]

theorem encodeTags_skip (child : Span) (pt : TagTable) (ft : Nat)
    (he : child.is_encode = false) : encodeTags child pt ft = pt := by
  simp [encodeTags, he]

/-! ### Characterisation of lcbtrace_span_finish -/

theorem finish_missing (st : Engine) (sid : Nat) (now : Option Nat)
    (hs : st.spans sid = none) :
    lcbtrace_span_finish st sid now = (st, Status.invalidState) := by
  simp [lcbtrace_span_finish, hs]

theorem finish_already (st : Engine) (sid : Nat) (now : Option Nat) (s : Span)
    (hs : st.spans sid = some s) (hf : s.finish_ts.isSome = true) :
    lcbtrace_span_finish st sid now = (st, Status.invalidState) := by
  simp [lcbtrace_span_finish, hs, hf]

theorem finish_success (st : Engine) (sid : Nat) (now : Option Nat) (s : Span)
    (hs : st.spans sid = some s) (hf : s.finish_ts = none) :
    lcbtrace_span_finish st sid now
      = (finishCore st sid s (resolveTs st now), Status.success) := by
  simp [lcbtrace_span_finish, hs, hf]

theorem finishCore_reports (st : Engine) (sid : Nat) (s : Span) (ft : Nat) :
    (finishCore st sid s ft).reports =
      if s.is_outer || s.parent.isNone then st.reports ++ [(sid, st.tracer.tid)]
      else st.reports := rfl

theorem propagateParent_none (tr : Tracer) (spans : Nat → Option Span) (s1 : Span)
    (ft : Nat) (h : s1.parent = none) : propagateParent tr spans s1 ft = spans := by
  unfold propagateParent
  rw [h]

theorem propagateParent_some (tr : Tracer) (spans : Nat → Option Span) (s1 : Span)
    (ft : Nat) (pid : Nat) (h : s1.parent = some pid) :
    propagateParent tr spans s1 ft =
      match spans pid with
      | none => spans
      | some p => updateSpan spans pid (propagate tr s1 p ft) := by
  unfold propagateParent
  rw [h]

theorem finishCore_spans_root (st : Engine) (sid : Nat) (s : Span) (ft : Nat)
    (hp : s.parent = none) :
    (finishCore st sid s ft).spans
      = updateSpan st.spans sid { s with finish_ts := some ft } := by
  show propagateParent st.tracer _ { s with finish_ts := some ft } ft = _
  exact propagateParent_none _ _ _ _ hp

theorem finishCore_spans_child (st : Engine) (sid : Nat) (s : Span) (ft : Nat)
    (pid : Nat) (p : Span) (hp : s.parent = some pid) (hpid : pid ≠ sid)
    (hps : st.spans pid = some p) :
    (finishCore st sid s ft).spans
      = updateSpan (updateSpan st.spans sid { s with finish_ts := some ft }) pid
          (propagate st.tracer { s with finish_ts := some ft } p ft) := by
  show propagateParent st.tracer _ { s with finish_ts := some ft } ft = _
  rw [propagateParent_some st.tracer _ { s with finish_ts := some ft } ft pid
    (show ({ s with finish_ts := some ft } : Span).parent = some pid from hp)]
  rw [updateSpan_ne st.spans sid _ pid hpid, hps]

theorem modifySpan_missing (st : Engine) (sid : Nat) (f : Span → Span)
    (hs : st.spans sid = none) : modifySpan st sid f = st := by
  unfold modifySpan
  rw [hs]

theorem modifySpan_present (st : Engine) (sid : Nat) (f : Span → Span) (s : Span)
    (hs : st.spans sid = some s) :
    modifySpan st sid f = { st with spans := updateSpan st.spans sid (f s) } := by
  unfold modifySpan
  rw [hs]

theorem startParent_some (st : Engine) (pref : Option Nat) (pid : Nat)
    (h : startParent st pref = some pid) : ∃ p, st.spans pid = some p := by
  cases pref with
  | none => exact absurd h (by simp [startParent])
  | some q =>
    have h2 : (if (st.spans q).isSome = true then some q else none) = some pid := h
    by_cases hq : (st.spans q).isSome = true
    · rw [if_pos hq] at h2
      have hqp : q = pid := Option.some.inj h2
      subst hqp
      exact Option.isSome_iff_exists.mp hq
    · rw [if_neg hq] at h2
      exact absurd h2 (by simp)

theorem newSpan_trace_parent (st : Engine) (op : String) (now : Option Nat)
    (pref : Option Nat) (pid : Nat) (p : Span) (hpar : startParent st pref = some pid)
    (hp : st.spans pid = some p) : (newSpan st op now pref).trace_id = p.trace_id := by
  have hred : startTraceId st (some pid) st.nextId = p.trace_id := by
    show (match st.spans pid with
      | some p2 => p2.trace_id
      | none => st.nextId) = p.trace_id
    rw [hp]
  show startTraceId st (startParent st pref) st.nextId = p.trace_id
  rw [hpar]
  exact hred

theorem newSpan_trace_root (st : Engine) (op : String) (now : Option Nat)
    (pref : Option Nat) (hpar : startParent st pref = none) :
    (newSpan st op now pref).trace_id = st.nextId := by
  show startTraceId st (startParent st pref) st.nextId = st.nextId
  rw [hpar]
  rfl

/-! ### Preservation of the structural invariant -/

theorem spanFields_inv (st : Engine) (spans2 : Nat → Option Span) (h : Inv st)
    (hfwd : ∀ j b, spans2 j = some b → ∃ a, st.spans j = some a ∧
      b.span_id = a.span_id ∧ b.trace_id = a.trace_id ∧ b.parent = a.parent ∧
      (tagKeys b.tags).Nodup)
    (hbwd : ∀ j a, st.spans j = some a → ∃ b, spans2 j = some b) :
    (∀ sid s, spans2 sid = some s → sid < st.nextId ∧ s.span_id = sid) ∧
    (∀ sid s pid, spans2 sid = some s → s.parent = some pid →
      pid < sid ∧ ∃ p, spans2 pid = some p) ∧
    (∀ sid s pid p, spans2 sid = some s → s.parent = some pid →
      spans2 pid = some p → s.trace_id = p.trace_id) ∧
    (∀ sid s, spans2 sid = some s → s.parent = none → s.trace_id = sid) ∧
    (∀ sid s, spans2 sid = some s → (tagKeys s.tags).Nodup) := by
  refine ⟨?_, ?_, ?_, ?_, ?_⟩
  · intro sid s hs2
    rcases hfwd sid s hs2 with ⟨a, ha, hid, _, _, _⟩
    rcases h.dom sid a ha with ⟨h1, h2⟩
    exact ⟨h1, by rw [hid, h2]⟩
  · intro sid s pid hs2 hpp
    rcases hfwd sid s hs2 with ⟨a, ha, _, _, hpar, _⟩
    rcases h.parentLt sid a pid ha (by rw [← hpar]; exact hpp) with ⟨h1, p, hp⟩
    exact ⟨h1, hbwd pid p hp⟩
  · intro sid s pid p hs2 hpp hp2
    rcases hfwd sid s hs2 with ⟨a, ha, _, htr, hpar, _⟩
    rcases hfwd pid p hp2 with ⟨a2, ha2, _, htr2, _, _⟩
    rw [htr, htr2]
    exact h.traceInherit sid a pid a2 ha (by rw [← hpar]; exact hpp) ha2
  · intro sid s hs2 hpp
    rcases hfwd sid s hs2 with ⟨a, ha, _, htr, hpar, _⟩
    rw [htr]
    exact h.rootTrace sid a ha (by rw [← hpar]; exact hpp)
  · intro sid s hs2
    rcases hfwd sid s hs2 with ⟨_, _, _, _, _, hnd⟩
    exact hnd

theorem inv_modifySpan (st : Engine) (sid : Nat) (f : Span → Span) (h : Inv st)
    (hid : ∀ a, (f a).span_id = a.span_id)
    (htr : ∀ a, (f a).trace_id = a.trace_id)
    (hpar : ∀ a, (f a).parent = a.parent)
    (hfin : ∀ a, (f a).finish_ts = a.finish_ts)
    (htags : ∀ a, (tagKeys a.tags).Nodup → (tagKeys (f a).tags).Nodup) :
    Inv (modifySpan st sid f) := by
  cases hs : st.spans sid with
  | none =>
    rw [modifySpan_missing st sid f hs]
    exact h
  | some s =>
    rw [modifySpan_present st sid f s hs]
    have hfwd : ∀ j b, updateSpan st.spans sid (f s) j = some b → ∃ a, st.spans j = some a ∧
        b.span_id = a.span_id ∧ b.trace_id = a.trace_id ∧ b.parent = a.parent ∧
        (tagKeys b.tags).Nodup := by
      intro j b hb
      by_cases hj : j = sid
      · subst hj
        rw [updateSpan_self] at hb
        have hbf : b = f s := (Option.some.inj hb).symm
        subst hbf
        exact ⟨s, hs, hid s, htr s, hpar s, htags s (h.tagsNodup j s hs)⟩
      · rw [updateSpan_ne _ _ _ _ hj] at hb
        exact ⟨b, hb, rfl, rfl, rfl, h.tagsNodup j b hb⟩
    have hbwd : ∀ j a, st.spans j = some a → ∃ b, updateSpan st.spans sid (f s) j = some b := by
      intro j a ha
      by_cases hj : j = sid
      · subst hj
        exact ⟨f s, updateSpan_self _ _ _⟩
      · exact ⟨a, by rw [updateSpan_ne _ _ _ _ hj]; exact ha⟩
    have hsf := spanFields_inv st (updateSpan st.spans sid (f s)) h hfwd hbwd
    refine ⟨hsf.1, hsf.2.1, hsf.2.2.1, hsf.2.2.2.1, hsf.2.2.2.2, h.reportOnce, ?_⟩
    intro sid2 tid2 hmem
    rcases h.reportFinished sid2 tid2 hmem with ⟨s3, hs3, hfin3⟩
    by_cases hj : sid2 = sid
    · subst hj
      have hss : s3 = s := by
        rw [hs3] at hs
        exact Option.some.inj hs
      subst hss
      exact ⟨f s3, updateSpan_self _ _ _, by rw [hfin s3]; exact hfin3⟩
    · refine ⟨s3, ?_, hfin3⟩
      show updateSpan st.spans sid (f s) sid2 = some s3
      rw [updateSpan_ne _ _ _ _ hj]
      exact hs3

theorem countP_reports_zero (st : Engine) (sid : Nat) (s : Span) (h : Inv st)
    (hs : st.spans sid = some s) (hf : s.finish_ts = none) :
    st.reports.countP (fun rp => decide (rp.1 = sid)) = 0 := by
  rw [List.countP_eq_zero]
  intro rp hrp
  simp only [decide_eq_true_eq]
  intro hc
  have hmem : (sid, rp.2) ∈ st.reports := by
    rw [← hc]
    exact hrp
  rcases h.reportFinished sid rp.2 hmem with ⟨s3, hs3, hfin3⟩
  rw [hs] at hs3
  have hss : s3 = s := (Option.some.inj hs3).symm
  subst hss
  rw [hf] at hfin3
  simp at hfin3

theorem reports_inv_append (st : Engine) (sid : Nat) (s : Span) (tid : Nat) (h : Inv st)
    (hs : st.spans sid = some s) (hf : s.finish_ts = none) :
    ∀ sid2, (st.reports ++ [(sid, tid)]).countP (fun rp => decide (rp.1 = sid2)) ≤ 1 := by
  intro sid2
  rw [List.countP_append]
  by_cases hss : sid2 = sid
  · subst hss
    rw [countP_reports_zero st sid2 s h hs hf]
    simp [List.countP_cons]
  · have h1 : ([(sid, tid)].countP (fun rp => decide (rp.1 = sid2))) = 0 := by
      have hne : ¬ sid = sid2 := fun hcc => hss hcc.symm
      simp [List.countP_cons, hne]
    rw [h1]
    have h2 := h.reportOnce sid2
    omega

theorem inv_finishCore (st : Engine) (sid : Nat) (s : Span) (ft : Nat) (h : Inv st)
    (hs : st.spans sid = some s) (hf : s.finish_ts = none) :
    Inv (finishCore st sid s ft) := by
  cases hpar : s.parent with
  | none =>
    have hspans := finishCore_spans_root st sid s ft hpar
    have hreps : (finishCore st sid s ft).reports = st.reports ++ [(sid, st.tracer.tid)] := by
      rw [finishCore_reports, hpar]
      simp
    have hfwd : ∀ j b, (finishCore st sid s ft).spans j = some b → ∃ a, st.spans j = some a ∧
        b.span_id = a.span_id ∧ b.trace_id = a.trace_id ∧ b.parent = a.parent ∧
        (tagKeys b.tags).Nodup := by
      intro j b hb
      rw [hspans] at hb
      by_cases hj : j = sid
      · subst hj
        rw [updateSpan_self] at hb
        have hb2 : b = { s with finish_ts := some ft } := (Option.some.inj hb).symm
        subst hb2
        exact ⟨s, hs, rfl, rfl, rfl, h.tagsNodup j s hs⟩
      · rw [updateSpan_ne _ _ _ _ hj] at hb
        exact ⟨b, hb, rfl, rfl, rfl, h.tagsNodup j b hb⟩
    have hbwd : ∀ j a, st.spans j = some a → ∃ b, (finishCore st sid s ft).spans j = some b := by
      intro j a ha
      rw [hspans]
      by_cases hj : j = sid
      · subst hj
        exact ⟨_, updateSpan_self _ _ _⟩
      · exact ⟨a, by rw [updateSpan_ne _ _ _ _ hj]; exact ha⟩
    have hsf := spanFields_inv st _ h hfwd hbwd
    refine ⟨hsf.1, hsf.2.1, hsf.2.2.1, hsf.2.2.2.1, hsf.2.2.2.2, ?_, ?_⟩
    · intro sid2
      rw [hreps]
      exact reports_inv_append st sid s st.tracer.tid h hs hf sid2
    · intro sid2 tid2 hmem
      rw [hreps] at hmem
      rcases List.mem_append.mp hmem with hmem | hmem
      · rcases h.reportFinished sid2 tid2 hmem with ⟨s3, hs3, hfin3⟩
        rw [hspans]
        by_cases hj : sid2 = sid
        · subst hj
          exact ⟨{ s with finish_ts := some ft }, updateSpan_self _ _ _, rfl⟩
        · exact ⟨s3, by rw [updateSpan_ne _ _ _ _ hj]; exact hs3, hfin3⟩
      · have hsid : sid2 = sid := by
          rcases List.mem_singleton.mp hmem with heq
          exact congrArg Prod.fst heq
        subst hsid
        rw [hspans]
        exact ⟨{ s with finish_ts := some ft }, updateSpan_self _ _ _, rfl⟩
  | some pid =>
    rcases h.parentLt sid s pid hs hpar with ⟨hlt, p, hp⟩
    have hpid : pid ≠ sid := Nat.ne_of_lt hlt
    have hspans := finishCore_spans_child st sid s ft pid p hpar hpid hp
    have hlook : ∀ j, (finishCore st sid s ft).spans j =
        if j = pid then some (propagate st.tracer { s with finish_ts := some ft } p ft)
        else if j = sid then some { s with finish_ts := some ft }
        else st.spans j := by
      intro j
      rw [hspans]
      rfl
    have hfwd : ∀ j b, (finishCore st sid s ft).spans j = some b → ∃ a, st.spans j = some a ∧
        b.span_id = a.span_id ∧ b.trace_id = a.trace_id ∧ b.parent = a.parent ∧
        (tagKeys b.tags).Nodup := by
      intro j b hb
      rw [hlook] at hb
      by_cases hj : j = pid
      · subst hj
        rw [if_pos rfl] at hb
        have hb2 : b = propagate st.tracer { s with finish_ts := some ft } p ft :=
          (Option.some.inj hb).symm
        subst hb2
        exact ⟨p, hp, rfl, rfl, rfl,
          nodup_tagKeys_propagate st.tracer _ p ft (h.tagsNodup j p hp)⟩
      · rw [if_neg hj] at hb
        by_cases hj2 : j = sid
        · subst hj2
          rw [if_pos rfl] at hb
          have hb2 : b = { s with finish_ts := some ft } := (Option.some.inj hb).symm
          subst hb2
          exact ⟨s, hs, rfl, rfl, rfl, h.tagsNodup j s hs⟩
        · rw [if_neg hj2] at hb
          exact ⟨b, hb, rfl, rfl, rfl, h.tagsNodup j b hb⟩
    have hbwd : ∀ j a, st.spans j = some a → ∃ b, (finishCore st sid s ft).spans j = some b := by
      intro j a ha
      rw [hlook]
      by_cases hj : j = pid
      · rw [if_pos hj]
        exact ⟨_, rfl⟩
      · rw [if_neg hj]
        by_cases hj2 : j = sid
        · rw [if_pos hj2]
          exact ⟨_, rfl⟩
        · rw [if_neg hj2]
          exact ⟨a, ha⟩
    have hsf := spanFields_inv st _ h hfwd hbwd
    have hreps : (finishCore st sid s ft).reports =
        if s.is_outer then st.reports ++ [(sid, st.tracer.tid)] else st.reports := by
      rw [finishCore_reports, hpar]
      simp
    refine ⟨hsf.1, hsf.2.1, hsf.2.2.1, hsf.2.2.2.1, hsf.2.2.2.2, ?_, ?_⟩
    · intro sid2
      rw [hreps]
      by_cases houter : s.is_outer
      · rw [if_pos houter]
        exact reports_inv_append st sid s st.tracer.tid h hs hf sid2
      · rw [if_neg houter]
        exact h.reportOnce sid2
    · intro sid2 tid2 hmem
      rw [hreps] at hmem
      have hold : (sid2, tid2) ∈ st.reports → ∃ b, (finishCore st sid s ft).spans sid2 = some b ∧
          b.finish_ts.isSome = true := by
        intro hmem2
        rcases h.reportFinished sid2 tid2 hmem2 with ⟨s3, hs3, hfin3⟩
        rw [hlook]
        by_cases hj : sid2 = pid
        · subst hj
          rw [if_pos rfl]
          have hs3p : s3 = p := by
            rw [hs3] at hp
            exact Option.some.inj hp
          subst hs3p
          exact ⟨_, rfl, hfin3⟩
        · rw [if_neg hj]
          by_cases hj2 : sid2 = sid
          · subst hj2
            rw [if_pos rfl]
            exact ⟨_, rfl, rfl⟩
          · rw [if_neg hj2]
            exact ⟨s3, hs3, hfin3⟩
      by_cases houter : s.is_outer
      · rw [if_pos houter] at hmem
        rcases List.mem_append.mp hmem with hmem | hmem
        · exact hold hmem
        · have hsid : sid2 = sid := congrArg Prod.fst (List.mem_singleton.mp hmem)
          subst hsid
          rw [hlook, if_neg hpid.symm, if_pos rfl]
          exact ⟨_, rfl, rfl⟩
      · rw [if_neg houter] at hmem
        exact hold hmem

theorem inv_start (st : Engine) (op : String) (now : Option Nat) (pref : Option Nat)
    (h : Inv st) : Inv (lcbtrace_span_start st op now pref).1 := by
  have hlook : ∀ j, (lcbtrace_span_start st op now pref).1.spans j =
      if j = st.nextId then some (newSpan st op now pref) else st.spans j := fun j => rfl
  constructor
  · intro j s2 hs2
    rw [hlook] at hs2
    by_cases hj : j = st.nextId
    · rw [if_pos hj] at hs2
      have hb : s2 = newSpan st op now pref := (Option.some.inj hs2).symm
      subst hb
      refine ⟨?_, ?_⟩
      · show j < st.nextId + 1
        omega
      · show st.nextId = j
        omega
    · rw [if_neg hj] at hs2
      rcases h.dom j s2 hs2 with ⟨h1, h2⟩
      exact ⟨Nat.lt_succ_of_lt h1, h2⟩
  · intro j s2 pid hs2 hpp
    rw [hlook] at hs2
    by_cases hj : j = st.nextId
    · rw [if_pos hj] at hs2
      have hb : s2 = newSpan st op now pref := (Option.some.inj hs2).symm
      subst hb
      have hsp : startParent st pref = some pid := hpp
      rcases startParent_some st pref pid hsp with ⟨p, hp⟩
      have hplt : pid < st.nextId := (h.dom pid p hp).1
      refine ⟨by omega, p, ?_⟩
      rw [hlook, if_neg (by omega)]
      exact hp
    · rw [if_neg hj] at hs2
      rcases h.parentLt j s2 pid hs2 hpp with ⟨h1, p, hp⟩
      have hplt : pid < st.nextId := (h.dom pid p hp).1
      refine ⟨h1, p, ?_⟩
      rw [hlook, if_neg (by omega)]
      exact hp
  · intro j s2 pid p2 hs2 hpp hp2
    rw [hlook] at hs2 hp2
    by_cases hj : j = st.nextId
    · rw [if_pos hj] at hs2
      have hb : s2 = newSpan st op now pref := (Option.some.inj hs2).symm
      subst hb
      have hsp : startParent st pref = some pid := hpp
      rcases startParent_some st pref pid hsp with ⟨p, hp⟩
      have hplt : pid < st.nextId := (h.dom pid p hp).1
      rw [if_neg (by omega)] at hp2
      exact newSpan_trace_parent st op now pref pid p2 hsp hp2
    · rw [if_neg hj] at hs2
      rcases h.parentLt j s2 pid hs2 hpp with ⟨h1, p, hp⟩
      have hplt : pid < st.nextId := (h.dom pid p hp).1
      rw [if_neg (by omega)] at hp2
      exact h.traceInherit j s2 pid p2 hs2 hpp hp2
  · intro j s2 hs2 hpp
    rw [hlook] at hs2
    by_cases hj : j = st.nextId
    · rw [if_pos hj] at hs2
      have hb : s2 = newSpan st op now pref := (Option.some.inj hs2).symm
      subst hb
      have hsp : startParent st pref = none := hpp
      rw [newSpan_trace_root st op now pref hsp, hj]
    · rw [if_neg hj] at hs2
      exact h.rootTrace j s2 hs2 hpp
  · intro j s2 hs2
    rw [hlook] at hs2
    by_cases hj : j = st.nextId
    · rw [if_pos hj] at hs2
      have hb : s2 = newSpan st op now pref := (Option.some.inj hs2).symm
      subst hb
      exact List.nodup_nil
    · rw [if_neg hj] at hs2
      exact h.tagsNodup j s2 hs2
  · exact h.reportOnce
  · intro sid2 tid2 hmem
    rcases h.reportFinished sid2 tid2 hmem with ⟨s3, hs3, hfin3⟩
    have hlt : sid2 < st.nextId := (h.dom sid2 s3 hs3).1
    refine ⟨s3, ?_, hfin3⟩
    rw [hlook, if_neg (by omega)]
    exact hs3

theorem inv_step (st : Engine) (h : Inv st) : ∀ c : Cmd, Inv (stepCmd st c) := by
  intro c
  cases c with
  | tick dt =>
    exact ⟨h.dom, h.parentLt, h.traceInherit, h.rootTrace, h.tagsNodup, h.reportOnce,
      h.reportFinished⟩
  | setTracer t =>
    exact ⟨h.dom, h.parentLt, h.traceInherit, h.rootTrace, h.tagsNodup, h.reportOnce,
      h.reportFinished⟩
  | start op now pref => exact inv_start st op now pref h
  | finish sid now =>
    cases hsp : st.spans sid with
    | none =>
      have hstep : stepCmd st (Cmd.finish sid now) = st := by
        show (lcbtrace_span_finish st sid now).1 = st
        rw [finish_missing st sid now hsp]
      rw [hstep]
      exact h
    | some s =>
      cases hft : s.finish_ts with
      | some t0 =>
        have hstep : stepCmd st (Cmd.finish sid now) = st := by
          show (lcbtrace_span_finish st sid now).1 = st
          rw [finish_already st sid now s hsp (by rw [hft]; rfl)]
        rw [hstep]
        exact h
      | none =>
        have hstep : stepCmd st (Cmd.finish sid now)
            = finishCore st sid s (resolveTs st now) := by
          show (lcbtrace_span_finish st sid now).1 = _
          rw [finish_success st sid now s hsp hft]
        rw [hstep]
        exact inv_finishCore st sid s _ h hsp hft
  | tagS sid name v =>
    exact inv_modifySpan st sid (fun a => { a with tags := addTag a.tags name (TagValue.str v) })
      h (fun a => rfl) (fun a => rfl) (fun a => rfl) (fun a => rfl)
      (fun a ha => nodup_tagKeys_addTag a.tags name (TagValue.str v) ha)
  | tagU sid name v =>
    exact inv_modifySpan st sid (fun a => { a with tags := addTag a.tags name (TagValue.uint v) })
      h (fun a => rfl) (fun a => rfl) (fun a => rfl) (fun a => rfl)
      (fun a ha => nodup_tagKeys_addTag a.tags name (TagValue.uint v) ha)
  | tagD sid name v =>
    exact inv_modifySpan st sid (fun a => { a with tags := addTag a.tags name (TagValue.dbl v) })
      h (fun a => rfl) (fun a => rfl) (fun a => rfl) (fun a => rfl)
      (fun a ha => nodup_tagKeys_addTag a.tags name (TagValue.dbl v) ha)
  | tagB sid name v =>
    exact inv_modifySpan st sid
      (fun a => { a with tags := addTag a.tags name (TagValue.boolean v) })
      h (fun a => rfl) (fun a => rfl) (fun a => rfl) (fun a => rfl)
      (fun a ha => nodup_tagKeys_addTag a.tags name (TagValue.boolean v) ha)
  | setOuter sid b =>
    exact inv_modifySpan st sid (fun a => { a with is_outer := b }) h
      (fun a => rfl) (fun a => rfl) (fun a => rfl) (fun a => rfl) (fun a ha => ha)
  | setEncode sid b =>
    exact inv_modifySpan st sid (fun a => { a with is_encode := b }) h
      (fun a => rfl) (fun a => rfl) (fun a => rfl) (fun a => rfl) (fun a ha => ha)
  | setDispatch sid b =>
    exact inv_modifySpan st sid (fun a => { a with is_dispatch := b }) h
      (fun a => rfl) (fun a => rfl) (fun a => rfl) (fun a => rfl) (fun a ha => ha)
  | setOrphaned sid b =>
    exact inv_modifySpan st sid (fun a => { a with orphaned := b }) h
      (fun a => rfl) (fun a => rfl) (fun a => rfl) (fun a => rfl) (fun a ha => ha)
  | setService sid svc =>
    exact inv_modifySpan st sid (fun a => { a with service := some svc }) h
      (fun a => rfl) (fun a => rfl) (fun a => rfl) (fun a => rfl) (fun a ha => ha)

theorem inv_init (t : Tracer) : Inv (initEngine t) := by
  constructor
  · intro sid s hs
    exact absurd hs (by simp [initEngine])
  · intro sid s pid hs _
    exact absurd hs (by simp [initEngine])
  · intro sid s pid p hs _ _
    exact absurd hs (by simp [initEngine])
  · intro sid s hs _
    exact absurd hs (by simp [initEngine])
  · intro sid s hs
    exact absurd hs (by simp [initEngine])
  · intro sid
    simp [initEngine]
  · intro sid tid hmem
    exact absurd hmem (by simp [initEngine])

theorem inv_foldl (cs : List Cmd) : ∀ st : Engine, Inv st → Inv (cs.foldl stepCmd st) := by
  induction cs with
  | nil => intro st h; exact h
  | cons c rest ih =>
    intro st h
    exact ih (stepCmd st c) (inv_step st h c)

theorem inv_runE (t : Tracer) (cs : List Cmd) : Inv (runE t cs) :=
  inv_foldl cs (initEngine t) (inv_init t)

/-! ### Preservation of the clock-order invariant under the NOW timestamp discipline -/

theorem wt_modifySpan (st : Engine) (sid : Nat) (f : Span → Span) (h : WTInv st)
    (hst : ∀ a, (f a).start_ts = a.start_ts)
    (hfin : ∀ a, (f a).finish_ts = a.finish_ts) :
    WTInv (modifySpan st sid f) := by
  cases hsp : st.spans sid with
  | none =>
    rw [modifySpan_missing st sid f hsp]
    exact h
  | some s =>
    rw [modifySpan_present st sid f s hsp]
    intro j s2 hs2
    have hs2b : updateSpan st.spans sid (f s) j = some s2 := hs2
    by_cases hj : j = sid
    · subst hj
      rw [updateSpan_self] at hs2b
      have hb : s2 = f s := (Option.some.inj hs2b).symm
      subst hb
      rcases h j s hsp with ⟨h1, h2⟩
      refine ⟨?_, ?_⟩
      · show (f s).start_ts ≤ st.clock
        rw [hst s]
        exact h1
      · intro u hu
        rw [hst s]
        exact h2 u (by rw [← hfin s]; exact hu)
    · rw [updateSpan_ne _ _ _ _ hj] at hs2b
      exact h j s2 hs2b

theorem wt_step (st : Engine) (c : Cmd) (hc : usesClock c = true) (hi : Inv st) (h : WTInv st) :
    WTInv (stepCmd st c) := by
  cases c with
  | tick dt =>
    intro j s hs
    rcases h j s hs with ⟨h1, h2⟩
    exact ⟨Nat.le_trans h1 (Nat.le_add_right _ _), h2⟩
  | setTracer t =>
    intro j s hs
    exact h j s hs
  | start op now pref =>
    have hnow : now = none := Option.isNone_iff_eq_none.mp hc
    subst hnow
    intro j s2 hs2
    have hs2b : updateSpan st.spans st.nextId (newSpan st op none pref) j = some s2 := hs2
    by_cases hj : j = st.nextId
    · subst hj
      rw [updateSpan_self] at hs2b
      have hb : s2 = newSpan st op none pref := (Option.some.inj hs2b).symm
      subst hb
      refine ⟨Nat.le_refl _, ?_⟩
      intro u hu
      exact absurd hu (by simp [newSpan])
    · rw [updateSpan_ne _ _ _ _ hj] at hs2b
      exact h j s2 hs2b
  | finish sid now =>
    have hnow : now = none := Option.isNone_iff_eq_none.mp hc
    subst hnow
    cases hsp : st.spans sid with
    | none =>
      have hstep : stepCmd st (Cmd.finish sid none) = st := by
        show (lcbtrace_span_finish st sid none).1 = st
        rw [finish_missing st sid none hsp]
      rw [hstep]
      exact h
    | some s =>
      cases hft : s.finish_ts with
      | some t0 =>
        have hstep : stepCmd st (Cmd.finish sid none) = st := by
          show (lcbtrace_span_finish st sid none).1 = st
          rw [finish_already st sid none s hsp (by rw [hft]; rfl)]
        rw [hstep]
        exact h
      | none =>
        have hstep : stepCmd st (Cmd.finish sid none)
            = finishCore st sid s (resolveTs st none) := by
          show (lcbtrace_span_finish st sid none).1 = _
          rw [finish_success st sid none s hsp hft]
        rw [hstep]
        rcases h sid s hsp with ⟨hsc, _⟩
        cases hpar : s.parent with
        | none =>
          intro j s2 hs2
          rw [finishCore_spans_root st sid s (resolveTs st none) hpar] at hs2
          by_cases hj : j = sid
          · subst hj
            rw [updateSpan_self] at hs2
            have hb : s2 = { s with finish_ts := some (resolveTs st none) } :=
              (Option.some.inj hs2).symm
            subst hb
            refine ⟨hsc, ?_⟩
            intro u hu
            have hu2 : some (resolveTs st none) = some u := hu
            rw [← Option.some.inj hu2]
            exact hsc
          · rw [updateSpan_ne _ _ _ _ hj] at hs2
            exact h j s2 hs2
        | some pid =>
          rcases hi.parentLt sid s pid hsp hpar with ⟨hlt, p, hp⟩
          have hpid : pid ≠ sid := Nat.ne_of_lt hlt
          intro j s2 hs2
          rw [finishCore_spans_child st sid s (resolveTs st none) pid p hpar hpid hp] at hs2
          have hs2b : (if j = pid
              then some (propagate st.tracer { s with finish_ts := some (resolveTs st none) } p
                (resolveTs st none))
              else if j = sid then some { s with finish_ts := some (resolveTs st none) }
              else st.spans j) = some s2 := hs2
          by_cases hj : j = pid
          · rw [if_pos hj] at hs2b
            have hb : s2 = propagate st.tracer
                { s with finish_ts := some (resolveTs st none) } p (resolveTs st none) :=
              (Option.some.inj hs2b).symm
            subst hb
            rcases h pid p hp with ⟨hp1, hp2⟩
            exact ⟨hp1, hp2⟩
          · rw [if_neg hj] at hs2b
            by_cases hj2 : j = sid
            · rw [if_pos hj2] at hs2b
              have hb : s2 = { s with finish_ts := some (resolveTs st none) } :=
                (Option.some.inj hs2b).symm
              subst hb
              refine ⟨hsc, ?_⟩
              intro u hu
              have hu2 : some (resolveTs st none) = some u := hu
              rw [← Option.some.inj hu2]
              exact hsc
            · rw [if_neg hj2] at hs2b
              exact h j s2 hs2b
  | tagS sid name v =>
    exact wt_modifySpan st sid _ h (fun a => rfl) (fun a => rfl)
  | tagU sid name v =>
    exact wt_modifySpan st sid _ h (fun a => rfl) (fun a => rfl)
  | tagD sid name v =>
    exact wt_modifySpan st sid _ h (fun a => rfl) (fun a => rfl)
  | tagB sid name v =>
    exact wt_modifySpan st sid _ h (fun a => rfl) (fun a => rfl)
  | setOuter sid b =>
    exact wt_modifySpan st sid _ h (fun a => rfl) (fun a => rfl)
  | setEncode sid b =>
    exact wt_modifySpan st sid _ h (fun a => rfl) (fun a => rfl)
  | setDispatch sid b =>
    exact wt_modifySpan st sid _ h (fun a => rfl) (fun a => rfl)
  | setOrphaned sid b =>
    exact wt_modifySpan st sid _ h (fun a => rfl) (fun a => rfl)
  | setService sid svc =>
    exact wt_modifySpan st sid _ h (fun a => rfl) (fun a => rfl)

theorem wt_init (t : Tracer) : WTInv (initEngine t) := by
  intro sid s hs
  exact absurd hs (by simp [initEngine])

theorem wt_foldl (cs : List Cmd) : ∀ st : Engine, Inv st → WTInv st →
    (∀ c ∈ cs, usesClock c = true) → WTInv (cs.foldl stepCmd st) := by
  induction cs with
  | nil => intro st _ hw _; exact hw
  | cons c rest ih =>
    intro st hi hw hcs
    exact ih (stepCmd st c) (inv_step st hi c)
      (wt_step st c (hcs c (List.mem_cons_self c rest)) hi hw)
      (fun c2 hc2 => hcs c2 (List.mem_cons_of_mem c hc2))

theorem wt_runE (t : Tracer) (cs : List Cmd) (hcs : ∀ c ∈ cs, usesClock c = true) :
    WTInv (runE t cs) :=
  wt_foldl cs (initEngine t) (inv_init t) (wt_init t) hcs

/-! ### Root ancestors and frame properties -/

theorem rootSpan_root (st : Engine) (fuel sid : Nat) (s : Span)
    (hs : st.spans sid = some s) (hp : s.parent = none) :
    rootSpan st (fuel + 1) sid = some (sid, s) := by
  have h1 : rootSpan st (fuel + 1) sid =
      (match s.parent with
        | none => some (sid, s)
        | some pid => rootSpan st fuel pid) := by
    show (match st.spans sid with
      | none => none
      | some s0 =>
        match s0.parent with
        | none => some (sid, s0)
        | some pid => rootSpan st fuel pid) = _
    rw [hs]
  rw [h1, hp]

theorem rootSpan_child (st : Engine) (fuel sid : Nat) (s : Span) (pid : Nat)
    (hs : st.spans sid = some s) (hp : s.parent = some pid) :
    rootSpan st (fuel + 1) sid = rootSpan st fuel pid := by
  have h1 : rootSpan st (fuel + 1) sid =
      (match s.parent with
        | none => some (sid, s)
        | some pid => rootSpan st fuel pid) := by
    show (match st.spans sid with
      | none => none
      | some s0 =>
        match s0.parent with
        | none => some (sid, s0)
        | some pid => rootSpan st fuel pid) = _
    rw [hs]
  rw [h1, hp]

theorem rootSpan_spec (st : Engine) (h : Inv st) :
    ∀ (fuel sid : Nat) (s : Span), sid < fuel → st.spans sid = some s →
      ∃ rid r, rootSpan st fuel sid = some (rid, r) ∧ st.spans rid = some r ∧
        r.parent = none ∧ s.trace_id = r.trace_id := by
  intro fuel
  induction fuel with
  | zero =>
    intro sid s hlt
    exact absurd hlt (Nat.not_lt_zero sid)
  | succ f ih =>
    intro sid s hlt hs
    cases hpar : s.parent with
    | none =>
      exact ⟨sid, s, rootSpan_root st f sid s hs hpar, hs, hpar, rfl⟩
    | some pid =>
      rcases h.parentLt sid s pid hs hpar with ⟨hplt, p, hp⟩
      have hpf : pid < f := by omega
      rcases ih pid p hpf hp with ⟨rid, r, hroot, hrs, hrp, hrt⟩
      refine ⟨rid, r, ?_, hrs, hrp, ?_⟩
      · rw [rootSpan_child st f sid s pid hs hpar]
        exact hroot
      · rw [h.traceInherit sid s pid p hs hpar hp]
        exact hrt

theorem modifySpan_preserves (st : Engine) (sid2 : Nat) (f : Span → Span) (sid : Nat)
    (s : Span) (hs : st.spans sid = some s)
    (hid : ∀ a, (f a).span_id = a.span_id) (htr : ∀ a, (f a).trace_id = a.trace_id)
    (hpar : ∀ a, (f a).parent = a.parent) (hst : ∀ a, (f a).start_ts = a.start_ts)
    (hfin : ∀ a, (f a).finish_ts = a.finish_ts) :
    ∃ s2, (modifySpan st sid2 f).spans sid = some s2 ∧ s2.span_id = s.span_id ∧
      s2.trace_id = s.trace_id ∧ s2.parent = s.parent ∧ s2.start_ts = s.start_ts ∧
      s2.finish_ts = s.finish_ts := by
  cases hsp : st.spans sid2 with
  | none =>
    rw [modifySpan_missing st sid2 f hsp]
    exact ⟨s, hs, rfl, rfl, rfl, rfl, rfl⟩
  | some s3 =>
    rw [modifySpan_present st sid2 f s3 hsp]
    by_cases hj : sid = sid2
    · subst hj
      have hss : s3 = s := Option.some.inj (hsp.symm.trans hs)
      subst hss
      refine ⟨f s3, ?_, hid s3, htr s3, hpar s3, hst s3, hfin s3⟩
      show updateSpan st.spans sid (f s3) sid = some (f s3)
      exact updateSpan_self _ _ _
    · refine ⟨s, ?_, rfl, rfl, rfl, rfl, rfl⟩
      show updateSpan st.spans sid2 (f s3) sid = some s
      rw [updateSpan_ne _ _ _ _ hj]
      exact hs

theorem step_preserves_span (st : Engine) (hinv : Inv st) (sid : Nat) (s : Span)
    (hs : st.spans sid = some s) (c : Cmd) :
    ∃ s2, (stepCmd st c).spans sid = some s2 ∧ s2.span_id = s.span_id ∧
      s2.trace_id = s.trace_id ∧ s2.parent = s.parent ∧ s2.start_ts = s.start_ts ∧
      ((¬ ∃ now, c = Cmd.finish sid now) → s2.finish_ts = s.finish_ts) := by
  cases c with
  | tick dt => exact ⟨s, hs, rfl, rfl, rfl, rfl, fun _ => rfl⟩
  | setTracer t => exact ⟨s, hs, rfl, rfl, rfl, rfl, fun _ => rfl⟩
  | start op now pref =>
    have hlt : sid < st.nextId := (hinv.dom sid s hs).1
    refine ⟨s, ?_, rfl, rfl, rfl, rfl, fun _ => rfl⟩
    show updateSpan st.spans st.nextId (newSpan st op now pref) sid = some s
    rw [updateSpan_ne _ _ _ _ (by omega)]
    exact hs
  | finish sid2 now =>
    cases hsp2 : st.spans sid2 with
    | none =>
      have hstep : stepCmd st (Cmd.finish sid2 now) = st := by
        show (lcbtrace_span_finish st sid2 now).1 = st
        rw [finish_missing st sid2 now hsp2]
      rw [hstep]
      exact ⟨s, hs, rfl, rfl, rfl, rfl, fun _ => rfl⟩
    | some s3 =>
      cases hft3 : s3.finish_ts with
      | some t0 =>
        have hstep : stepCmd st (Cmd.finish sid2 now) = st := by
          show (lcbtrace_span_finish st sid2 now).1 = st
          rw [finish_already st sid2 now s3 hsp2 (by rw [hft3]; rfl)]
        rw [hstep]
        exact ⟨s, hs, rfl, rfl, rfl, rfl, fun _ => rfl⟩
      | none =>
        have hstep : stepCmd st (Cmd.finish sid2 now)
            = finishCore st sid2 s3 (resolveTs st now) := by
          show (lcbtrace_span_finish st sid2 now).1 = _
          rw [finish_success st sid2 now s3 hsp2 hft3]
        rw [hstep]
        cases hpar3 : s3.parent with
        | none =>
          rw [show (finishCore st sid2 s3 (resolveTs st now)).spans
              = updateSpan st.spans sid2 { s3 with finish_ts := some (resolveTs st now) }
            from finishCore_spans_root st sid2 s3 (resolveTs st now) hpar3]
          by_cases hj : sid = sid2
          · subst hj
            have hss : s3 = s := Option.some.inj (hsp2.symm.trans hs)
            subst hss
            refine ⟨{ s3 with finish_ts := some (resolveTs st now) }, updateSpan_self _ _ _,
              rfl, rfl, rfl, rfl, ?_⟩
            intro hno
            exact absurd ⟨now, rfl⟩ hno
          · refine ⟨s, ?_, rfl, rfl, rfl, rfl, fun _ => rfl⟩
            rw [updateSpan_ne _ _ _ _ hj]
            exact hs
        | some pid =>
          rcases hinv.parentLt sid2 s3 pid hsp2 hpar3 with ⟨hplt, p, hp⟩
          have hpid : pid ≠ sid2 := Nat.ne_of_lt hplt
          rw [show (finishCore st sid2 s3 (resolveTs st now)).spans
              = updateSpan (updateSpan st.spans sid2
                  { s3 with finish_ts := some (resolveTs st now) }) pid
                (propagate st.tracer { s3 with finish_ts := some (resolveTs st now) } p
                  (resolveTs st now))
            from finishCore_spans_child st sid2 s3 (resolveTs st now) pid p hpar3 hpid hp]
          by_cases hj : sid = pid
          · subst hj
            have hpp : p = s := Option.some.inj (hp.symm.trans hs)
            subst hpp
            exact ⟨propagate st.tracer { s3 with finish_ts := some (resolveTs st now) } p
                (resolveTs st now), updateSpan_self _ _ _, rfl, rfl, rfl, rfl, fun _ => rfl⟩
          · by_cases hj2 : sid = sid2
            · subst hj2
              have hss : s3 = s := Option.some.inj (hsp2.symm.trans hs)
              subst hss
              refine ⟨{ s3 with finish_ts := some (resolveTs st now) }, ?_, rfl, rfl, rfl,
                rfl, ?_⟩
              · rw [updateSpan_ne _ _ _ _ (fun hc => hpid hc.symm)]
                exact updateSpan_self _ _ _
              · intro hno
                exact absurd ⟨now, rfl⟩ hno
            · refine ⟨s, ?_, rfl, rfl, rfl, rfl, fun _ => rfl⟩
              rw [updateSpan_ne _ _ _ _ hj, updateSpan_ne _ _ _ _ hj2]
              exact hs
  | tagS sid2 name v =>
    rcases modifySpan_preserves st sid2 (fun a => { a with tags := addTag a.tags name (TagValue.str v) }) sid s hs (fun a => rfl) (fun a => rfl)
      (fun a => rfl) (fun a => rfl) (fun a => rfl) with ⟨s2, h1, h2, h3, h4, h5, h6⟩
    exact ⟨s2, h1, h2, h3, h4, h5, fun _ => h6⟩
  | tagU sid2 name v =>
    rcases modifySpan_preserves st sid2 (fun a => { a with tags := addTag a.tags name (TagValue.uint v) }) sid s hs (fun a => rfl) (fun a => rfl)
      (fun a => rfl) (fun a => rfl) (fun a => rfl) with ⟨s2, h1, h2, h3, h4, h5, h6⟩
    exact ⟨s2, h1, h2, h3, h4, h5, fun _ => h6⟩
  | tagD sid2 name v =>
    rcases modifySpan_preserves st sid2 (fun a => { a with tags := addTag a.tags name (TagValue.dbl v) }) sid s hs (fun a => rfl) (fun a => rfl)
      (fun a => rfl) (fun a => rfl) (fun a => rfl) with ⟨s2, h1, h2, h3, h4, h5, h6⟩
    exact ⟨s2, h1, h2, h3, h4, h5, fun _ => h6⟩
  | tagB sid2 name v =>
    rcases modifySpan_preserves st sid2 (fun a => { a with tags := addTag a.tags name (TagValue.boolean v) }) sid s hs (fun a => rfl) (fun a => rfl)
      (fun a => rfl) (fun a => rfl) (fun a => rfl) with ⟨s2, h1, h2, h3, h4, h5, h6⟩
    exact ⟨s2, h1, h2, h3, h4, h5, fun _ => h6⟩
  | setOuter sid2 b =>
    rcases modifySpan_preserves st sid2 (fun a => { a with is_outer := b }) sid s hs (fun a => rfl) (fun a => rfl)
      (fun a => rfl) (fun a => rfl) (fun a => rfl) with ⟨s2, h1, h2, h3, h4, h5, h6⟩
    exact ⟨s2, h1, h2, h3, h4, h5, fun _ => h6⟩
  | setEncode sid2 b =>
    rcases modifySpan_preserves st sid2 (fun a => { a with is_encode := b }) sid s hs (fun a => rfl) (fun a => rfl)
      (fun a => rfl) (fun a => rfl) (fun a => rfl) with ⟨s2, h1, h2, h3, h4, h5, h6⟩
    exact ⟨s2, h1, h2, h3, h4, h5, fun _ => h6⟩
  | setDispatch sid2 b =>
    rcases modifySpan_preserves st sid2 (fun a => { a with is_dispatch := b }) sid s hs (fun a => rfl) (fun a => rfl)
      (fun a => rfl) (fun a => rfl) (fun a => rfl) with ⟨s2, h1, h2, h3, h4, h5, h6⟩
    exact ⟨s2, h1, h2, h3, h4, h5, fun _ => h6⟩
  | setOrphaned sid2 b =>
    rcases modifySpan_preserves st sid2 (fun a => { a with orphaned := b }) sid s hs (fun a => rfl) (fun a => rfl)
      (fun a => rfl) (fun a => rfl) (fun a => rfl) with ⟨s2, h1, h2, h3, h4, h5, h6⟩
    exact ⟨s2, h1, h2, h3, h4, h5, fun _ => h6⟩
  | setService sid2 svc =>
    rcases modifySpan_preserves st sid2 (fun a => { a with service := some svc }) sid s hs (fun a => rfl) (fun a => rfl)
      (fun a => rfl) (fun a => rfl) (fun a => rfl) with ⟨s2, h1, h2, h3, h4, h5, h6⟩
    exact ⟨s2, h1, h2, h3, h4, h5, fun _ => h6⟩

/-! ### Claim theorems for the span engine -/

/-- C1: over any command sequence every span is reported at most once; and a
successful finish hands the span to the report path of the tracer active at finish
time exactly when the span is flagged outer or has no parent: the report log grows by
the pair of span id and active tracer id in that case and is unchanged otherwise, so
a finished non-outer span with a parent is never reported individually. -/
theorem C1_finish_reports_iff :
    (∀ (t : Tracer) (cs : List Cmd) (sid : Nat),
      (runE t cs).reports.countP (fun rp => decide (rp.1 = sid)) ≤ 1) ∧
    (∀ (st : Engine) (sid : Nat) (s : Span) (now : Option Nat),
      st.spans sid = some s → s.finish_ts = none →
      ((lcbtrace_span_finish st sid now).1).reports
        = st.reports ++ (if s.is_outer || s.parent.isNone then [(sid, st.tracer.tid)]
          else [])) := by
  constructor
  · intro t cs sid
    exact (inv_runE t cs).reportOnce sid
  · intro st sid s now hs hf
    rw [finish_success st sid now s hs hf]
    show (finishCore st sid s (resolveTs st now)).reports = _
    rw [finishCore_reports]
    by_cases hcond : (s.is_outer || s.parent.isNone) = true
    · rw [if_pos hcond, if_pos hcond]
    · rw [if_neg hcond, if_neg hcond, List.append_nil]

/-- Witness for C1: the finished outer root span of cs1 is reported once, and a
concrete successful finish appends exactly one report pair. -/
theorem C1_finish_reports_iff_witness :
    (runE trA cs1).reports.countP (fun rp => decide (rp.1 = 0)) ≤ 1 ∧
    (runE trA [Cmd.start "get" none none]).spans 0 = some spanW ∧
    ((lcbtrace_span_finish (runE trA [Cmd.start "get" none none]) 0 none).1).reports
      = (runE trA [Cmd.start "get" none none]).reports
        ++ (if spanW.is_outer || spanW.parent.isNone then [(0, trA.tid)] else []) :=
  ⟨C1_finish_reports_iff.1 trA cs1 0, by decide,
    C1_finish_reports_iff.2 (runE trA [Cmd.start "get" none none]) 0 spanW none
      (by decide) (by decide)⟩

/-- Counterexample to C4 as stated, at two concrete inputs.  First, with an external
v1-callback tracer active, the dispatch-flagged child of cs4 carries a string tag and
finishes successfully, yet the tag is not present on the parent afterwards.  Second,
under a plain non-v1 tracer, the dispatch-flagged child of cs5x, which is also
encode-flagged and itself carries a tag named total_encode_duration with value 1000,
finishes, and the parent afterwards holds that tag with value 1007 (the copied value
plus the child duration), not the identical value 1000. -/
theorem C4_counterexample :
    (((runE trV1 cs4).spans 1).map (fun s => (s.is_dispatch, s.finish_ts.isSome,
        getTag s.tags "net.peer.port"))
      = some (true, true, some (TagValue.str "11210")) ∧
     ((runE trV1 cs4).spans 0).map (fun s => getTag s.tags "net.peer.port") = some none) ∧
    (((runE trA (cs5x.take 6)).spans 1).map (fun s => (s.is_dispatch,
        getTag s.tags encodeDurationKey))
      = some (true, some (TagValue.uint 1000)) ∧
     ((runE trA cs5x).spans 1).map (fun s => s.finish_ts.isSome) = some true ∧
     ((runE trA cs5x).spans 0).map (fun s => getTag s.tags encodeDurationKey)
      = some (some (TagValue.uint 1007)) ∧
     TagValue.uint 1007 ≠ TagValue.uint 1000) := by
  exact ⟨⟨rfl, rfl⟩, rfl, rfl, rfl, by decide⟩

/-- C4 (amended): for a dispatch-flagged unfinished child in a reachable state, when
the tracer active at finish time is not an external v1-callback tracer, finishing the
child succeeds and every tag of the child (of any of the four value types) whose name
is not total_encode_duration is afterwards present in the TagTable of the parent with
an identical value; when the child is not also encode-flagged this holds for every
tag of the child without exception (an encode-flagged child has its copied
total_encode_duration tag overwritten by the encode accumulation); if the child has
no parent, the copy is skipped, the finish still succeeds, and no other span
changes. -/
theorem C4_dispatch_tag_copy (t : Tracer) (cs : List Cmd) (cid : Nat) (c : Span)
    (now : Option Nat) (hs : (runE t cs).spans cid = some c)
    (hdisp : c.is_dispatch = true) (hf : c.finish_ts = none) :
    (∀ pid, c.parent = some pid → (runE t cs).tracer.externalV1 = false →
      (lcbtrace_span_finish (runE t cs) cid now).2 = Status.success ∧
      ∃ p2, ((lcbtrace_span_finish (runE t cs) cid now).1).spans pid = some p2 ∧
        (∀ name v, getTag c.tags name = some v → name ≠ encodeDurationKey →
          getTag p2.tags name = some v) ∧
        (c.is_encode = false → ∀ name v, getTag c.tags name = some v →
          getTag p2.tags name = some v)) ∧
    (c.parent = none →
      (lcbtrace_span_finish (runE t cs) cid now).2 = Status.success ∧
      ∀ j, j ≠ cid → ((lcbtrace_span_finish (runE t cs) cid now).1).spans j
        = (runE t cs).spans j) := by
  have hinv := inv_runE t cs
  have hfs := finish_success (runE t cs) cid now c hs hf
  constructor
  · intro pid hpar hv1
    rcases hinv.parentLt cid c pid hs hpar with ⟨hlt, p, hp⟩
    have hpid : pid ≠ cid := Nat.ne_of_lt hlt
    refine ⟨by rw [hfs], ?_⟩
    have hsp := finishCore_spans_child (runE t cs) cid c (resolveTs (runE t cs) now) pid p
      hpar hpid hp
    have hpt : (propagate (runE t cs).tracer
        { c with finish_ts := some (resolveTs (runE t cs) now) } p
        (resolveTs (runE t cs) now)).tags
        = encodeTags { c with finish_ts := some (resolveTs (runE t cs) now) }
            (copyTags c.tags p.tags) (resolveTs (runE t cs) now) := by
      show encodeTags { c with finish_ts := some (resolveTs (runE t cs) now) }
        (dispatchTags (runE t cs).tracer
          { c with finish_ts := some (resolveTs (runE t cs) now) } p.tags)
        (resolveTs (runE t cs) now) = _
      rw [dispatchTags_copy (runE t cs).tracer
        { c with finish_ts := some (resolveTs (runE t cs) now) } p.tags
        (show ({ c with finish_ts := some (resolveTs (runE t cs) now) } : Span).is_dispatch
          = true from hdisp) hv1]
    refine ⟨propagate (runE t cs).tracer
      { c with finish_ts := some (resolveTs (runE t cs) now) } p
      (resolveTs (runE t cs) now), ?_, ?_, ?_⟩
    · rw [hfs]
      show (finishCore (runE t cs) cid c (resolveTs (runE t cs) now)).spans pid = _
      rw [hsp]
      exact updateSpan_self _ _ _
    · intro name v hv hne
      rw [hpt]
      have hcopy : getTag (copyTags c.tags p.tags) name = some v :=
        getTag_copyTags name v c.tags p.tags (hinv.tagsNodup cid c hs) hv
      rcases Bool.eq_false_or_eq_true c.is_encode with hence | hence
      · rw [encodeTags_add { c with finish_ts := some (resolveTs (runE t cs) now) } _ _
          (show ({ c with finish_ts := some (resolveTs (runE t cs) now) } : Span).is_encode
            = true from hence)]
        show getTag (addTag (copyTags c.tags p.tags) encodeDurationKey
          (TagValue.uint (encBase (copyTags c.tags p.tags)
            + (resolveTs (runE t cs) now - c.start_ts)))) name = some v
        rw [getTag_addTag_ne _ _ _ _ hne]
        exact hcopy
      · rw [encodeTags_skip { c with finish_ts := some (resolveTs (runE t cs) now) } _ _
          (show ({ c with finish_ts := some (resolveTs (runE t cs) now) } : Span).is_encode
            = false from hence)]
        exact hcopy
    · intro hencf name v hv
      rw [hpt, encodeTags_skip { c with finish_ts := some (resolveTs (runE t cs) now) } _ _
        (show ({ c with finish_ts := some (resolveTs (runE t cs) now) } : Span).is_encode
          = false from hencf)]
      exact getTag_copyTags name v c.tags p.tags (hinv.tagsNodup cid c hs) hv
  · intro hpar
    refine ⟨by rw [hfs], ?_⟩
    intro j hj
    rw [hfs]
    show (finishCore (runE t cs) cid c (resolveTs (runE t cs) now)).spans j = _
    rw [finishCore_spans_root (runE t cs) cid c (resolveTs (runE t cs) now) hpar]
    exact updateSpan_ne _ _ _ _ hj

/-- Witness for C4: finishing the dispatch child of cs4w under the simple tracer
copies all four tags of the child onto the parent with identical values. -/
theorem C4_dispatch_tag_copy_witness :
    (runE trA cs4w).spans 1 = some c4span ∧
    (lcbtrace_span_finish (runE trA cs4w) 1 none).2 = Status.success ∧
    (∃ p2, ((lcbtrace_span_finish (runE trA cs4w) 1 none).1).spans 0 = some p2 ∧
      getTag p2.tags "net.peer.name" = some (TagValue.str "remote") ∧
      getTag p2.tags "net.peer.port" = some (TagValue.uint 11210) ∧
      getTag p2.tags "lat" = some (TagValue.dbl 77) ∧
      getTag p2.tags "ok" = some (TagValue.boolean true)) := by
  have h := (C4_dispatch_tag_copy trA cs4w 1 c4span none (by decide) (by decide)
    (by decide)).1 0 (by decide) (by decide)
  rcases h.2 with ⟨p2, hp2, _, hall⟩
  exact ⟨by decide, h.1, ⟨p2, hp2,
    hall (by decide) "net.peer.name" (TagValue.str "remote") (by decide),
    hall (by decide) "net.peer.port" (TagValue.uint 11210) (by decide),
    hall (by decide) "lat" (TagValue.dbl 77) (by decide),
    hall (by decide) "ok" (TagValue.boolean true) (by decide)⟩⟩

theorem notmem_tagKeys_of_getTag_none (t : TagTable) (n : String)
    (h : getTag t n = none) : n ∉ tagKeys t := by
  induction t with
  | nil => exact List.not_mem_nil n
  | cons hd tl ih =>
    obtain ⟨m, w⟩ := hd
    by_cases hm : m = n
    · subst hm
      exact absurd h (by simp [getTag])
    · have h2 : getTag tl n = none := by
        have heq : getTag ((m, w) :: tl) n = getTag tl n := by simp [getTag, hm]
        rw [← heq]
        exact h
      intro hmem
      have hmem2 : n ∈ m :: tagKeys tl := hmem
      rcases List.mem_cons.mp hmem2 with hc | hc
      · exact hm hc.symm
      · exact ih h2 hc

theorem encBase_addTag_self (pt : TagTable) (n : Nat) :
    encBase (addTag pt encodeDurationKey (TagValue.uint n)) = n := by
  unfold encBase
  rw [getTag_addTag_self]

theorem encBase_dispatchTags (tr : Tracer) (child : Span) (pt : TagTable)
    (hnocopy : child.is_dispatch = false ∨ tr.externalV1 = true ∨
      getTag child.tags encodeDurationKey = none) :
    encBase (dispatchTags tr child pt) = encBase pt := by
  rcases hnocopy with h | h | h
  · rw [dispatchTags_skip tr child pt h]
  · rw [dispatchTags_skip_v1 tr child pt h]
  · unfold dispatchTags
    split
    · show encBase (copyTags child.tags pt) = encBase pt
      unfold encBase
      rw [getTag_copyTags_notmem encodeDurationKey child.tags pt
        (notmem_tagKeys_of_getTag_none child.tags encodeDurationKey h)]
    · rfl

theorem encode_finish_parent (st : Engine) (cid pid : Nat) (c p : Span) (tf : Nat)
    (hs : st.spans cid = some c) (hp : st.spans pid = some p)
    (hcp : c.parent = some pid) (hpid : pid ≠ cid)
    (henc : c.is_encode = true) (hf : c.finish_ts = none)
    (hnocopy : c.is_dispatch = false ∨ st.tracer.externalV1 = true ∨
      getTag c.tags encodeDurationKey = none) :
    (∃ p2, ((lcbtrace_span_finish st cid (some tf)).1).spans pid = some p2 ∧
      getTag p2.tags encodeDurationKey
        = some (TagValue.uint (encBase p.tags + (tf - c.start_ts))) ∧
      encBase p2.tags = encBase p.tags + (tf - c.start_ts)) ∧
    (∀ j, j ≠ cid → j ≠ pid →
      ((lcbtrace_span_finish st cid (some tf)).1).spans j = st.spans j) ∧
    ((lcbtrace_span_finish st cid (some tf)).1).tracer = st.tracer := by
  have hfs := finish_success st cid (some tf) c hs hf
  have hsp := finishCore_spans_child st cid c (resolveTs st (some tf)) pid p hcp hpid hp
  have hnocopy2 : ({ c with finish_ts := some (resolveTs st (some tf)) } : Span).is_dispatch
      = false ∨ st.tracer.externalV1 = true ∨
      getTag ({ c with finish_ts := some (resolveTs st (some tf)) } : Span).tags
        encodeDurationKey = none := hnocopy
  have hbase := encBase_dispatchTags st.tracer
    { c with finish_ts := some (resolveTs st (some tf)) } p.tags hnocopy2
  have htags : (propagate st.tracer { c with finish_ts := some (resolveTs st (some tf)) } p
      (resolveTs st (some tf))).tags
      = addTag (dispatchTags st.tracer { c with finish_ts := some (resolveTs st (some tf)) } p.tags) encodeDurationKey (TagValue.uint (encBase (dispatchTags st.tracer { c with finish_ts := some (resolveTs st (some tf)) } p.tags) + (tf - c.start_ts))) := by
    show encodeTags { c with finish_ts := some (resolveTs st (some tf)) } (dispatchTags st.tracer { c with finish_ts := some (resolveTs st (some tf)) } p.tags) (resolveTs st (some tf)) = _
    rw [encodeTags_add { c with finish_ts := some (resolveTs st (some tf)) } _ _
      (show ({ c with finish_ts := some (resolveTs st (some tf)) } : Span).is_encode
        = true from henc)]
    rfl
  refine ⟨?_, ?_, by rw [hfs]; rfl⟩
  · refine ⟨propagate st.tracer { c with finish_ts := some (resolveTs st (some tf)) } p
      (resolveTs st (some tf)), ?_, ?_, ?_⟩
    · rw [hfs]
      show (finishCore st cid c (resolveTs st (some tf))).spans pid = _
      rw [hsp]
      exact updateSpan_self _ _ _
    · rw [htags, getTag_addTag_self, hbase]
    · rw [htags, encBase_addTag_self, hbase]
  · intro j hjc hjp
    rw [hfs]
    show (finishCore st cid c (resolveTs st (some tf))).spans j = st.spans j
    rw [hsp, updateSpan_ne _ _ _ _ hjp, updateSpan_ne _ _ _ _ hjc]

/-- Counterexample to C5 as stated: the child of cs5x is encode-flagged, has a
parent whose accumulated encode duration tag is absent (value zero) before the
finish, and has duration 7, yet after the finish the parent tag holds 1007 rather
than 0 + 7: the child is also dispatch-flagged and itself carries a tag named
total_encode_duration with value 1000, which the dispatch copy writes over the
parent accumulator before the encode increment reads it. -/
theorem C5_counterexample :
    ((runE trA (cs5x.take 6)).spans 0).map (fun s => getTag s.tags encodeDurationKey)
      = some none ∧
    ((runE trA (cs5x.take 6)).spans 1).map (fun s => (s.is_encode, s.finish_ts))
      = some (true, none) ∧
    ((runE trA cs5x).spans 1).map (fun s => (s.start_ts, s.finish_ts))
      = some (0, some 7) ∧
    ((runE trA cs5x).spans 0).map (fun s => getTag s.tags encodeDurationKey)
      = some (some (TagValue.uint 1007)) ∧
    (1007 : Nat) ≠ 0 + 7 := by
  exact ⟨rfl, rfl, rfl, rfl, by decide⟩

/-- C5 (amended): finishing an encode-flagged child with a parent adds the child
duration (finish minus start timestamp) to the accumulated total_encode_duration
numeric tag of the parent, incrementing the current value (zero when the tag is
absent), and finishing two encode-flagged children of the same parent leaves the tag
equal to the sum of both durations (accumulation is additive, not last-write-wins) —
provided the accumulated tag is not first overwritten by the dispatch tag copy, that
is, provided each child is not dispatch-flagged, or the active tracer is an external
v1-callback tracer (which skips the copy), or the child does not itself carry a
total_encode_duration tag. -/
theorem C5_encode_accumulates (st : Engine) (cid pid : Nat) (c p : Span) (tf : Nat)
    (hs : st.spans cid = some c) (hp : st.spans pid = some p)
    (hcp : c.parent = some pid) (hpid : pid ≠ cid)
    (henc : c.is_encode = true) (hf : c.finish_ts = none)
    (hnocopy : c.is_dispatch = false ∨ st.tracer.externalV1 = true ∨
      getTag c.tags encodeDurationKey = none) :
    (∃ p2, ((lcbtrace_span_finish st cid (some tf)).1).spans pid = some p2 ∧
      getTag p2.tags encodeDurationKey
        = some (TagValue.uint (encBase p.tags + (tf - c.start_ts)))) ∧
    (∀ cid2 c2 tf2, st.spans cid2 = some c2 → cid2 ≠ cid → cid2 ≠ pid →
      c2.parent = some pid → c2.is_encode = true → c2.finish_ts = none →
      (c2.is_dispatch = false ∨ st.tracer.externalV1 = true ∨
        getTag c2.tags encodeDurationKey = none) →
      getTag p.tags encodeDurationKey = none →
      ∃ p3, ((lcbtrace_span_finish ((lcbtrace_span_finish st cid (some tf)).1) cid2
          (some tf2)).1).spans pid = some p3 ∧
        getTag p3.tags encodeDurationKey
          = some (TagValue.uint ((tf - c.start_ts) + (tf2 - c2.start_ts)))) := by
  have h1 := encode_finish_parent st cid pid c p tf hs hp hcp hpid henc hf hnocopy
  rcases h1.1 with ⟨p2, hp2, hget2, hbase2⟩
  constructor
  · exact ⟨p2, hp2, hget2⟩
  · intro cid2 c2 tf2 hs2 hne2 hnp2 hcp2 henc2 hf2 hnocopy2 hnone
    have hs2b : ((lcbtrace_span_finish st cid (some tf)).1).spans cid2 = some c2 := by
      rw [h1.2.1 cid2 hne2 hnp2]
      exact hs2
    have hpid2 : pid ≠ cid2 := fun hcc => hnp2 hcc.symm
    have hnocopy2b : c2.is_dispatch = false ∨
        ((lcbtrace_span_finish st cid (some tf)).1).tracer.externalV1 = true ∨
        getTag c2.tags encodeDurationKey = none := by
      rcases hnocopy2 with h | h | h
      · exact Or.inl h
      · exact Or.inr (Or.inl (by rw [h1.2.2]; exact h))
      · exact Or.inr (Or.inr h)
    have h2 := encode_finish_parent ((lcbtrace_span_finish st cid (some tf)).1) cid2 pid c2
      p2 tf2 hs2b hp2 hcp2 hpid2 henc2 hf2 hnocopy2b
    rcases h2.1 with ⟨p3, hp3, hget3, _⟩
    refine ⟨p3, hp3, ?_⟩
    have hb0 : encBase p.tags = 0 := by
      unfold encBase
      rw [hnone]
    rw [hget3, hbase2, hb0, Nat.zero_add]

/-- Witness for C5: finishing the two encode children of cs5 at timestamps 30 and 50
leaves the parent with total_encode_duration equal to 80, the sum of both durations. -/
theorem C5_encode_accumulates_witness :
    (runE trA cs5).spans 1 = some c5child1 ∧ (runE trA cs5).spans 2 = some c5child2 ∧
    (∃ p3, ((lcbtrace_span_finish ((lcbtrace_span_finish (runE trA cs5) 1 (some 30)).1) 2
        (some 50)).1).spans 0 = some p3 ∧
      getTag p3.tags encodeDurationKey = some (TagValue.uint 80)) := by
  have h := C5_encode_accumulates (runE trA cs5) 1 0 c5child1 spanW 30 (by decide)
    (by decide) (by decide) (by decide) (by decide) (by decide) (Or.inl (by decide))
  rcases h.2 2 c5child2 50 (by decide) (by decide) (by decide) (by decide) (by decide)
    (by decide) (Or.inl (by decide)) (by decide) with ⟨p3, hp3, hv⟩
  exact ⟨by decide, by decide, ⟨p3, hp3, hv⟩⟩

/-- C6: in every reachable state, a span with no parent is its own trace root (its
trace id equals its own id), every span has a root ancestor with no parent whose trace
id it shares (trace ids are inherited along the parent chain), and no operation after
creation ever changes the trace id or the parent link of an existing span. -/
theorem C6_trace_id_root (t : Tracer) (cs : List Cmd) (sid : Nat) (s : Span)
    (hs : (runE t cs).spans sid = some s) :
    (s.parent = none → s.trace_id = sid) ∧
    (∃ rid r, rootSpan (runE t cs) (sid + 1) sid = some (rid, r) ∧
      (runE t cs).spans rid = some r ∧ r.parent = none ∧ s.trace_id = r.trace_id) ∧
    (∀ c, ∃ s2, (stepCmd (runE t cs) c).spans sid = some s2 ∧
      s2.trace_id = s.trace_id ∧ s2.parent = s.parent) := by
  have hinv := inv_runE t cs
  refine ⟨hinv.rootTrace sid s hs, ?_, ?_⟩
  · exact rootSpan_spec (runE t cs) hinv (sid + 1) sid s (Nat.lt_succ_self sid) hs
  · intro c
    rcases step_preserves_span (runE t cs) hinv sid s hs c with ⟨s2, h1, _, h3, h4, _, _⟩
    exact ⟨s2, h1, h3, h4⟩

/-- Witness for C6: the child span of cs6 shares the trace id of its root ancestor,
and a subsequent command leaves its trace id and parent link unchanged. -/
theorem C6_trace_id_root_witness :
    (runE trA cs6).spans 1 = some c6child ∧
    (c6child.parent = none → c6child.trace_id = 1) ∧
    (∃ rid r, rootSpan (runE trA cs6) 2 1 = some (rid, r) ∧
      (runE trA cs6).spans rid = some r ∧ r.parent = none ∧
      c6child.trace_id = r.trace_id) ∧
    (∃ s2, (stepCmd (runE trA cs6) (Cmd.setOuter 1 true)).spans 1 = some s2 ∧
      s2.trace_id = c6child.trace_id ∧ s2.parent = c6child.parent) :=
  have h := C6_trace_id_root trA cs6 1 c6child (by decide)
  ⟨by decide, h.1, h.2.1, h.2.2 (Cmd.setOuter 1 true)⟩

/-- Counterexample to C7 as stated: a caller passing explicit timestamps can finish a
span earlier than it started; in cs7 the span starts at 100 and is finished with
explicit timestamp 50, so finish_ts is set and smaller than start_ts. -/
theorem C7_counterexample :
    ((runE trA cs7).spans 0).map (fun s => (s.start_ts, s.finish_ts))
      = some (100, some 50) ∧ 50 < 100 := by
  constructor
  · rfl
  · decide

/-- C7 (amended): finish_ts of a newly started span holds the unset sentinel (none);
no command other than a finish of the span itself changes its finish_ts, so the
sentinel persists until the span is finished; and when every timestamp is taken from
the monotone clock (the LCBTRACE_NOW sentinel path), every finished span satisfies
finish_ts at least start_ts.  With explicit caller-supplied timestamps the ordering is
the obligation of the caller. -/
theorem C7_finish_ts_sentinel (t : Tracer) (cs : List Cmd) :
    (∀ (st : Engine) (op : String) (now : Option Nat) (pref : Option Nat),
      ((lcbtrace_span_start st op now pref).1).spans (lcbtrace_span_start st op now pref).2
        = some (newSpan st op now pref) ∧ (newSpan st op now pref).finish_ts = none) ∧
    (∀ sid s c, (runE t cs).spans sid = some s → (¬ ∃ now, c = Cmd.finish sid now) →
      ∃ s2, (stepCmd (runE t cs) c).spans sid = some s2 ∧ s2.finish_ts = s.finish_ts) ∧
    ((∀ c ∈ cs, usesClock c = true) → ∀ sid s u, (runE t cs).spans sid = some s →
      s.finish_ts = some u → s.start_ts ≤ u) := by
  refine ⟨?_, ?_, ?_⟩
  · intro st op now pref
    exact ⟨updateSpan_self _ _ _, rfl⟩
  · intro sid s c hs hno
    rcases step_preserves_span (runE t cs) (inv_runE t cs) sid s hs c with
      ⟨s2, h1, _, _, _, _, h6⟩
    exact ⟨s2, h1, h6 hno⟩
  · intro hcs sid s u hs hu
    exact (wt_runE t cs hcs sid s hs).2 u hu

/-- Witness for C7: the newly started span of the fresh engine has the sentinel
finish timestamp, a non-finish command does not change the finish timestamp of span 0
of csW, and the clock-path finished span of csW has finish_ts 5 at least its
start_ts. -/
theorem C7_finish_ts_sentinel_witness :
    (((lcbtrace_span_start (initEngine trA) "get" none none).1).spans
        (lcbtrace_span_start (initEngine trA) "get" none none).2
      = some (newSpan (initEngine trA) "get" none none)
      ∧ (newSpan (initEngine trA) "get" none none).finish_ts = none) ∧
    (∃ s2, (stepCmd (runE trA csW) (Cmd.setOuter 0 true)).spans 0 = some s2 ∧
      s2.finish_ts = c7span.finish_ts) ∧
    c7span.start_ts ≤ 5 :=
  have h := C7_finish_ts_sentinel trA csW
  ⟨h.1 (initEngine trA) "get" none none,
   h.2.1 0 c7span (Cmd.setOuter 0 true) (by decide)
     (fun hex => by rcases hex with ⟨now2, heq⟩; exact Cmd.noConfusion heq),
   h.2.2 (by decide) 0 c7span 5 (by decide) (by decide)⟩

/-- C8: a successful finish reports the span to the tracer active at the time
lcbtrace_span_finish is called: the appended report pair carries the id of the
currently active tracer; and after swapping the active tracer to B between creation
and finish, the report goes to B rather than to the creation-time tracer recorded in
the span. -/
theorem C8_finish_time_binding (st : Engine) (sid : Nat) (s : Span) (now : Option Nat)
    (B : Tracer) (hs : st.spans sid = some s) (hf : s.finish_ts = none)
    (houter : (s.is_outer || s.parent.isNone) = true) :
    (((lcbtrace_span_finish st sid now).1).reports
      = st.reports ++ [(sid, st.tracer.tid)]) ∧
    (((lcbtrace_span_finish (lcb_set_tracer st B) sid now).1).reports
      = st.reports ++ [(sid, B.tid)]) ∧
    (s.ctracer ≠ B.tid → B.tid ≠ s.ctracer) := by
  refine ⟨?_, ?_, fun h => h.symm⟩
  · rw [finish_success st sid now s hs hf]
    show (finishCore st sid s (resolveTs st now)).reports = _
    rw [finishCore_reports, if_pos houter]
  · have hs2 : (lcb_set_tracer st B).spans sid = some s := hs
    rw [finish_success (lcb_set_tracer st B) sid now s hs2 hf]
    show (finishCore (lcb_set_tracer st B) sid s
      (resolveTs (lcb_set_tracer st B) now)).reports = _
    rw [finishCore_reports, if_pos houter]
    rfl

/-- Witness for C8: span 0 of cs8 was created under trA (tracer id 0 recorded as its
creation tracer); after swapping the active tracer to trB, finishing routes the
report to trB (tracer id 1), not to the creation-time tracer. -/
theorem C8_finish_time_binding_witness :
    (runE trA cs8).spans 0 = some c8span ∧
    ((lcbtrace_span_finish (lcb_set_tracer (runE trA cs8) trB) 0 none).1).reports
      = (runE trA cs8).reports ++ [(0, trB.tid)] ∧
    trB.tid ≠ c8span.ctracer :=
  have h := C8_finish_time_binding (runE trA cs8) 0 c8span none trB (by decide) (by decide)
    (by decide)
  ⟨by decide, h.2.1, h.2.2 (by decide)⟩

/-- C9: a second finish of an already finished span is detected and rejected with the
InvalidState error: the whole engine state is returned unchanged, in particular no
report is appended and the recorded finish timestamp of the span is untouched. -/
theorem C9_double_finish_rejected (st : Engine) (sid : Nat) (s : Span) (u : Nat)
    (now : Option Nat) (hs : st.spans sid = some s) (hf : s.finish_ts = some u) :
    lcbtrace_span_finish st sid now = (st, Status.invalidState) ∧
    ((lcbtrace_span_finish st sid now).1).reports = st.reports ∧
    ∃ s2, ((lcbtrace_span_finish st sid now).1).spans sid = some s2 ∧
      s2.finish_ts = some u := by
  have h1 := finish_already st sid now s hs (by rw [hf]; rfl)
  exact ⟨h1, by rw [h1], ⟨s, by rw [h1]; exact hs, hf⟩⟩

/-- Witness for C9: finishing the already finished span 0 of csW a second time, with
a different explicit timestamp, returns InvalidState, leaves the engine unchanged,
and keeps the recorded finish timestamp 5. -/
theorem C9_double_finish_rejected_witness :
    lcbtrace_span_finish (runE trA csW) 0 (some 99) = (runE trA csW, Status.invalidState) ∧
    ∃ s2, ((lcbtrace_span_finish (runE trA csW) 0 (some 99)).1).spans 0 = some s2 ∧
      s2.finish_ts = some 5 :=
  have h := C9_double_finish_rejected (runE trA csW) 0 c7span 5 (some 99) (by decide)
    (by decide)
  ⟨h.1, h.2.2⟩

/-- Counterexample to C10 as stated: under an external v1-callback tracer, finishing
the dispatch-flagged child of cs10, which is also encode-flagged, does change the
TagTable of the parent: before the finish the parent table is empty, afterwards it
holds the accumulated encode duration tag. -/
theorem C10_counterexample :
    ((runE trV1 (cs10.take 5)).spans 0).map (fun s => s.tags) = some [] ∧
    ((runE trV1 cs10).spans 1).map (fun s => (s.is_dispatch, s.finish_ts.isSome))
      = some (true, true) ∧
    ((runE trV1 cs10).spans 0).map (fun s => s.tags)
      = some [(encodeDurationKey, TagValue.uint 5)] := by
  refine ⟨rfl, rfl, rfl⟩

/-- C10 (amended): when the active tracer is an external v1-callback tracer,
finishing a dispatch-flagged child never copies any of its tags into the parent:
the finish succeeds, every parent tag whose name is not total_encode_duration reads
the same as before the finish, the parent span (its TagTable included) is exactly
unchanged when the child is not also encode-flagged, and when the child is
encode-flagged the parent changes only by the write of the accumulated
total_encode_duration tag. -/
theorem C10_external_no_copy (st : Engine) (cid pid : Nat) (c p : Span)
    (now : Option Nat) (hs : st.spans cid = some c) (hp : st.spans pid = some p)
    (hcp : c.parent = some pid) (hpid : pid ≠ cid) (_hdisp : c.is_dispatch = true)
    (hf : c.finish_ts = none) (hv1 : st.tracer.externalV1 = true) :
    (lcbtrace_span_finish st cid now).2 = Status.success ∧
    ∃ p2, ((lcbtrace_span_finish st cid now).1).spans pid = some p2 ∧
      (∀ name, name ≠ encodeDurationKey → getTag p2.tags name = getTag p.tags name) ∧
      (c.is_encode = false → p2 = p) ∧
      (c.is_encode = true → p2 = { p with tags := addTag p.tags encodeDurationKey (TagValue.uint (encBase p.tags + (resolveTs st now - c.start_ts))) }) := by
  have hfs := finish_success st cid now c hs hf
  have hsp := finishCore_spans_child st cid c (resolveTs st now) pid p hcp hpid hp
  have htags : (propagate st.tracer { c with finish_ts := some (resolveTs st now) } p
      (resolveTs st now)).tags
      = encodeTags { c with finish_ts := some (resolveTs st now) } p.tags
          (resolveTs st now) := by
    show encodeTags { c with finish_ts := some (resolveTs st now) }
      (dispatchTags st.tracer { c with finish_ts := some (resolveTs st now) } p.tags)
      (resolveTs st now) = _
    rw [dispatchTags_skip_v1 st.tracer { c with finish_ts := some (resolveTs st now) }
      p.tags hv1]
  refine ⟨by rw [hfs], propagate st.tracer
    { c with finish_ts := some (resolveTs st now) } p (resolveTs st now),
    ?_, ?_, ?_, ?_⟩
  · rw [hfs]
    show (finishCore st cid c (resolveTs st now)).spans pid = _
    rw [hsp]
    exact updateSpan_self _ _ _
  · intro name hne
    rw [htags]
    rcases Bool.eq_false_or_eq_true c.is_encode with hence | hence
    · rw [encodeTags_add { c with finish_ts := some (resolveTs st now) } _ _
        (show ({ c with finish_ts := some (resolveTs st now) } : Span).is_encode
          = true from hence)]
      show getTag (addTag p.tags encodeDurationKey
        (TagValue.uint (encBase p.tags + (resolveTs st now - c.start_ts)))) name
        = getTag p.tags name
      exact getTag_addTag_ne _ _ _ _ hne
    · rw [encodeTags_skip { c with finish_ts := some (resolveTs st now) } _ _
        (show ({ c with finish_ts := some (resolveTs st now) } : Span).is_encode
          = false from hence)]
  · intro hence
    show ({ p with tags := encodeTags { c with finish_ts := some (resolveTs st now) } (dispatchTags st.tracer { c with finish_ts := some (resolveTs st now) } p.tags) (resolveTs st now) } : Span) = p
    rw [dispatchTags_skip_v1 st.tracer { c with finish_ts := some (resolveTs st now) }
        p.tags hv1,
      encodeTags_skip { c with finish_ts := some (resolveTs st now) } p.tags _
        (show ({ c with finish_ts := some (resolveTs st now) } : Span).is_encode
          = false from hence)]
  · intro hence
    show ({ p with tags := encodeTags { c with finish_ts := some (resolveTs st now) } (dispatchTags st.tracer { c with finish_ts := some (resolveTs st now) } p.tags) (resolveTs st now) } : Span) = _
    rw [dispatchTags_skip_v1 st.tracer { c with finish_ts := some (resolveTs st now) }
        p.tags hv1,
      encodeTags_add { c with finish_ts := some (resolveTs st now) } p.tags _
        (show ({ c with finish_ts := some (resolveTs st now) } : Span).is_encode
          = true from hence)]
    rfl

/-- Witness for C10: finishing the dispatch-only child of cs10w under the external
v1 tracer leaves the parent span, its single pre-existing tag included, unchanged. -/
theorem C10_external_no_copy_witness :
    (runE trV1 cs10w).spans 1 = some c10child ∧
    (lcbtrace_span_finish (runE trV1 cs10w) 1 none).2 = Status.success ∧
    ((lcbtrace_span_finish (runE trV1 cs10w) 1 none).1).spans 0 = some c10parent := by
  have h := C10_external_no_copy (runE trV1 cs10w) 1 0 c10child c10parent none
    (by decide) (by decide) (by decide) (by decide) (by decide) (by decide) (by decide)
  rcases h.2 with ⟨p2, hp2, _, hsame, _⟩
  have hpp : p2 = c10parent := hsame (by decide)
  exact ⟨by decide, h.1, by rw [← hpp]; exact hp2⟩

end LcbTrace
